import Mathlib

/-!
# Shallow embedding of equinor/layered-file-protocols

This file embeds, in Lean, the parts of the layered-file-protocols C++
sources needed to settle the claims about the library:

* `src/unnamed/part_001` — the in-memory leaf source `memfile`;
* `src/src/tapeimage.cpp` (first revision in the file, the one all claim
  line numbers refer to) — the tape-image framing decoder: `address_map`,
  `record_index`, `read_head`, `tapeimage` and `lfp_tapeimage_open`;
* `src/src/rp66.cpp` — the rp66 visible-envelope decoder: `address_map`,
  `record_index` (with its ghost node), `read_head`, `rp66` and
  `lfp_rp66_open`.

Modelling conventions, applied uniformly:

* Bytes are `Nat` (a real stream holds values `< 256`; the memfile simply
  stores and returns whatever it is given, exactly as `std::memcpy` does).
* `std::int64_t` quantities (offsets, lengths, `remaining`) are `Int`.
  The spec fixes the arithmetic as 64-bit signed; every quantity the
  claims touch is far below `2^63`, so mathematical integers coincide.
* `std::uint32_t` header fields are `Nat`s produced by a 4-byte
  little-endian decode, hence automatically `< 2^32`.
* The host is little-endian (the `IS_BIG_ENDIAN` conditional blocks in
  the sources are not compiled on the CI hosts), so the tape-image header
  bytes are consumed as-is and the rp66 length bytes are reversed.
* C++ exceptions become `Except` results.  An error carries the state of
  the object at the throw point, because the C++ object survives the
  throw with all mutations made so far (`Except (Err × State) ...`).
* `while (true)` loops become fuel recursion.  Exhausting the fuel
  returns the artificial status `Status.diverged`; the fuel supplied by
  the top-level operations is shown (or computed) to be sufficient on
  every input the theorems speak about.
* `assert(...)` statements are ignored (NDEBUG builds) and allocation
  failure (`record_index::append`'s catch) is not modelled: a Lean list
  append cannot fail.
* `std::prev` applied to the first element of a vector is undefined
  behaviour in C++; the embedding clamps the index with truncated `Nat`
  subtraction.  No claim depends on a state that reaches it.
-/

/-- The `lfp_status` enumeration of `include/lfp/lfp.h`, plus three
modelling artifacts: `logicError` and `stdInvalidArgument` stand for the
`std::logic_error` / `std::invalid_argument` exceptions the C++ throws
(which surface as `LFP_UNHANDLED_EXCEPTION` at the C API), and
`diverged` is the fuel-exhaustion marker of the embedding. -/
inductive Status where
  | ok
  | okincomplete
  | eof
  | invalidArgs
  | ioError
  | runtimeError
  | notImplemented
  | leafProtocol
  | notSupported
  | protocolFatal
  | protocolTryRecovery
  | protocolFailedRecovery
  | unexpectedEof
  | unhandledException
  | logicError
  | stdInvalidArgument
  | diverged
deriving DecidableEq, Repr

/-- An `lfp::error` (or std exception): a status kind plus the message
template passed at the throw site (the `fmt::format` arguments are not
substituted; the claims only inspect the template text). -/
structure Err where
  status : Status
  msg : String
deriving DecidableEq, Repr

/-- Is `pat` a leading run of `l`? -/
def leadsWith : List Char → List Char → Bool
  | [], _ => true
  | _ :: _, [] => false
  | p :: ps, c :: cs => p == c && leadsWith ps cs

/-- Does `hay` contain `pat` as a contiguous run? -/
def containsSeq (hay pat : List Char) : Bool :=
  match hay with
  | [] => pat.isEmpty
  | _ :: rest => leadsWith pat hay || containsSeq rest pat

/-- Does a message template mention the 4 GiB limit? -/
def mentions4GB (s : String) : Bool :=
  containsSeq s.data ['4', 'G', 'B']

/-! ## The memfile leaf (`src/unnamed/part_001`)

```cpp
class memfile : public lfp_protocol {
    std::vector< unsigned char > mem;
    std::int64_t pos = 0;
};
```
-/

/-- `lfp::memfile`: a borrowed byte buffer plus a cursor.  The code keeps
`0 ≤ pos ≤ mem.size()` (reads clamp, seek range-checks), so `pos : Nat`. -/
structure memfile where
  mem : List Nat
  pos : Nat
deriving DecidableEq, Repr

/-- `memfile::readinto`: copy `min(len, remaining)` bytes from the
cursor, advance the cursor, return `LFP_OK` if the request was filled and
`LFP_OKINCOMPLETE` otherwise.  Returns (bytes copied, status, new state). -/
def memfile.readinto (f : memfile) (len : Nat) : List Nat × Status × memfile :=
  let remaining := f.mem.length - f.pos
  let n := min len remaining
  let bytes := (f.mem.drop f.pos).take n
  (bytes, if n < len then .okincomplete else .ok, { f with pos := f.pos + n })

/-- `memfile::eof`: true exactly when the cursor sits at the end. -/
def memfile.eof (f : memfile) : Bool :=
  f.pos == f.mem.length

/-- `memfile::tell`. -/
def memfile.tell (f : memfile) : Int :=
  (f.pos : Int)

/-- `memfile::seek`: `invalid_args` for `n < 0` and for
`n >= mem.size()`; otherwise reposition the cursor.  The error carries
the unmodified state (the throws happen before the assignment). -/
def memfile.seek (f : memfile) (n : Int) : Except (Err × memfile) memfile :=
  if n < 0 then
    .error (⟨.invalidArgs, "memfile: seek offset n < 0"⟩, f)
  else if (f.mem.length : Int) ≤ n then
    .error (⟨.invalidArgs, "memfile: seek: offset (= {}) >= file size (= {})"⟩, f)
  else
    .ok { f with pos := n.toNat }

/-! ## Little-endian 32-bit header fields -/

/-- Recompose a `uint32` from four little-endian bytes, as the
`std::memcpy(&field, b + 4*k, 4)` lines do on a little-endian host. -/
def le32 (b0 b1 b2 b3 : Nat) : Nat :=
  b0 + 256 * b1 + 65536 * b2 + 16777216 * b3

/-- The four little-endian bytes of a value `v < 2^32`. -/
def leBytes4 (v : Nat) : List Nat :=
  [v % 256, v / 256 % 256, v / 65536 % 256, v / 16777216 % 256]

/-! ## The tape-image decoder (`src/src/tapeimage.cpp`, first revision)

The claims' line numbers all refer to the first revision contained in
`src/src/tapeimage.cpp` (the `record_index`/`read_head` one); it is the
embedding's source of truth.
-/

/-- `lfp::header` (tapeimage): three `uint32` fields, 12 bytes on disk. -/
structure header where
  type : Nat
  prev : Nat
  next : Nat
deriving DecidableEq, Repr

/-- Default header used to model out-of-range vector access. -/
def dummyHeader : header := ⟨0, 0, 0⟩

/-- `address_map::logical` (tapeimage): `addr - 12*(1 + record) - zero`. -/
def tifLogical (zero addr : Int) (record : Int) : Int :=
  addr - 12 * (1 + record) - zero

/-- `address_map::physical` (tapeimage): `addr + 12*(1 + record) + zero`. -/
def tifPhysical (zero addr : Int) (record : Int) : Int :=
  addr + 12 * (1 + record) + zero

/-- The state of a `lfp::tapeimage` handle: the `address_map`'s `zero`,
the owned inner memfile, the `record_index` contents, the `read_head`
(an iterator position into the index plus a remaining-byte count), and
the sticky `recovery` status (`LFP_OK` when clear). -/
structure tapeimage where
  zero : Int
  fp : memfile
  index : List header
  curPos : Nat
  curRemaining : Int
  recovery : Status
deriving DecidableEq, Repr

/-- The header the read head (`this->current`) points at. -/
def tapeimage.cur (s : tapeimage) : header :=
  s.index.getD s.curPos dummyHeader

/-- `read_head::tell`: `(*this)->next - remaining`. -/
def tapeimage.headTell (s : tapeimage) : Int :=
  (s.cur.next : Int) - s.curRemaining

/-- `tapeimage::eof`: the current record is a *file* mark (`type == 1`). -/
def tapeimage.eof (s : tapeimage) : Bool :=
  s.cur.type == 1

/-- `record_index::append` (allocation failure not modelled). -/
def tapeimage.append (s : tapeimage) (h : header) : tapeimage :=
  { s with index := s.index ++ [h] }

/-- The validation cascade of `tapeimage::read_header_from_disk` after
the 12 header bytes were read and decoded: unknown-type recovery,
`next <= prev` fatality, back-pointer consistency, then append. -/
def tapeimage.validateHeader (s : tapeimage) (ty pv nx : Nat) :
    Except (Err × tapeimage) tapeimage :=
  let consistent := ty == 0 || ty == 1
  if !consistent && s.recovery != .ok then
    .error (⟨.protocolFailedRecovery,
      "tapeimage: unknown head.type in recovery, file probably corrupt"⟩, s)
  else
    -- not consistent & not in recovery: mark recovery, coerce type to record
    let s1 := if consistent then s else { s with recovery := .protocolTryRecovery }
    let ty1 := if consistent then ty else 0
    if nx ≤ pv then
      if !consistent then
        .error (⟨.protocolFatal,
          "file corrupt: header type is not 0 or 1, head.next (= {}) <= head.prev (= {}). File might be missing data"⟩, s1)
      else
        .error (⟨.protocolFatal,
          "file corrupt: head.next (= {}) <= head.prev (= {}). File size might be > 4GB"⟩, s1)
    else if 2 ≤ s1.index.length then
      let back2 := s1.index.getD (s1.index.length - 2) dummyHeader
      if pv != back2.next then
        if s1.recovery != .ok then
          .error (⟨.protocolFailedRecovery,
            "file corrupt: head.prev (= {}) != prev(prev(head)).next (= {}). Error happened in recovery mode. File might be missing data"⟩, s1)
        else
          .ok (tapeimage.append { s1 with recovery := .protocolTryRecovery }
                ⟨ty1, back2.next, nx⟩)
      else
        .ok (s1.append ⟨ty1, pv, nx⟩)
    else if s1.recovery != .ok && !s1.index.isEmpty then
      if (pv : Int) != s1.zero then
        .error (⟨.protocolFailedRecovery,
          "file corrupt: second header prev (= {}) must be pointing to zero (= {}). Error happened in recovery mode. File might be missing data"⟩, s1)
      else
        .ok (s1.append ⟨ty1, pv, nx⟩)
    else
      .ok (s1.append ⟨ty1, pv, nx⟩)

/-- `tapeimage::read_header_from_disk`: read 12 bytes from the inner
stream, decode three little-endian `uint32`s, run the validation
cascade.  A short read is `protocol_failed_recovery`; an inner EOF is
`unexpected_eof` (the memfile inner never produces it). -/
def tapeimage.read_header_from_disk (s0 : tapeimage) :
    Except (Err × tapeimage) tapeimage :=
  let r := s0.fp.readinto 12
  let b := r.1
  let s := { s0 with fp := r.2.2 }
  match r.2.1 with
  | .ok =>
    let ty := le32 (b.getD 0 0) (b.getD 1 0) (b.getD 2 0) (b.getD 3 0)
    let pv := le32 (b.getD 4 0) (b.getD 5 0) (b.getD 6 0) (b.getD 7 0)
    let nx := le32 (b.getD 8 0) (b.getD 9 0) (b.getD 10 0) (b.getD 11 0)
    tapeimage.validateHeader s ty pv nx
  | .okincomplete => .error (⟨.protocolFailedRecovery,
      "tapeimage: incomplete read of tapeimage header, recovery not implemented"⟩, s)
  | .eof => .error (⟨.unexpectedEof,
      "tapeimage: unexpected EOF when reading header - got {} bytes"⟩, s)
  | _ => .error (⟨.notImplemented,
      "tapeimage: unhandled error code in read_header"⟩, s)

/-- `read_head::move(index.last())` after an append: reposition the read
head at the start of the new last record.  `base_offset =
std::prev(itr)->next + 12` (the `std::prev` of the first element is C++
UB; clamped here, and unreachable in the states the theorems use). -/
def tapeimage.moveLast (s : tapeimage) : tapeimage :=
  let n := s.index.length
  let lastH := s.index.getD (n - 1) dummyHeader
  let prevH := s.index.getD (n - 2) dummyHeader
  { s with curPos := n - 1,
           curRemaining := (lastH.next : Int) - ((prevH.next : Int) + 12) }

/-- The `while (true)` loop of the byte-counting
`tapeimage::readinto(void*, int64)`, with fuel.  Accumulates the bytes
delivered to the caller's buffer in `acc`. -/
def tapeimage.readLoop (len : Int) (acc : List Nat) :
    Nat → tapeimage → Except (Err × tapeimage) (List Nat × tapeimage)
  | 0, s => .error (⟨.diverged, "model: while-loop fuel exhausted"⟩, s)
  | fuel+1, s =>
    if s.eof then .ok (acc, s)
    else if s.curRemaining == 0 then
      if s.curPos == s.index.length - 1 then
        match s.read_header_from_disk with
        | .error e => .error e
        | .ok s1 => tapeimage.readLoop len acc fuel s1.moveLast
      else
        -- next = current.next_record(); fp->seek(next.tell()); current.move(next)
        let nxt := s.index.getD (s.curPos + 1) dummyHeader
        let tellNext := (s.cur.next : Int) + 12
        match s.fp.seek tellNext with
        | .error (e, fp1) => .error (e, { s with fp := fp1 })
        | .ok fp1 =>
          tapeimage.readLoop len acc fuel
            { s with fp := fp1, curPos := s.curPos + 1,
                     curRemaining := (nxt.next : Int) - tellNext }
    else
      let toRead := min len s.curRemaining
      let r := s.fp.readinto toRead.toNat
      let bytes := r.1
      let n : Int := (bytes.length : Int)
      -- current.move(n): std::invalid_argument when remaining - n < 0
      if s.curRemaining - n < 0 then
        .error (⟨.stdInvalidArgument, "advancing read_head past end-of-record"⟩,
                { s with fp := r.2.2 })
      else
        let s1 := { s with fp := r.2.2, curRemaining := s.curRemaining - n }
        let acc1 := acc ++ bytes
        if r.2.1 == .okincomplete then .ok (acc1, s1)
        else if r.2.1 == .eof && s1.curRemaining != 0 then
          .error (⟨.unexpectedEof,
            "tapeimage: unexpected EOF when reading header - got {} bytes"⟩, s1)
        else if r.2.1 == .eof then .ok (acc1, s1)
        else if n == len then .ok (acc1, s1)
        else tapeimage.readLoop (len - n) acc1 fuel s1

/-- Fuel supplied to the read loop: each iteration either delivers at
least one byte of the request, consumes 12 header bytes of the inner
stream, or walks one indexed record forward, so this bound dominates. -/
def tapeimage.fuelFor (s : tapeimage) (len : Int) : Nat :=
  len.toNat + s.fp.mem.length + s.index.length + 4

/-- The public `tapeimage::readinto(dst, len, bytes_read)`: run the read
loop, then derive the status — a sticky recovery status wins, then `ok`
on a full read, `eof` at a file mark, `okincomplete` otherwise. -/
def tapeimage.readinto (s : tapeimage) (len : Int) :
    Except (Err × tapeimage) (List Nat × Status × tapeimage) :=
  match tapeimage.readLoop len [] (s.fuelFor len) s with
  | .error e => .error e
  | .ok (out, s1) =>
    let st := if s1.recovery != .ok then s1.recovery
              else if (out.length : Int) == len then Status.ok
              else if s1.eof then Status.eof
              else Status.okincomplete
    .ok (out, st, s1)

/-- `tapeimage::tell`: `addr.logical(current.tell(), index_of(current))`. -/
def tapeimage.tell (s : tapeimage) : Int :=
  tifLogical s.zero s.headTell (s.curPos : Int)

/-- `record_index::contains`:
`n < addr.logical(last->next, size() - 1)`. -/
def tapeimage.contains (s : tapeimage) (n : Int) : Bool :=
  let lastH := s.index.getD (s.index.length - 1) dummyHeader
  decide (n < tifLogical s.zero (lastH.next : Int) ((s.index.length : Int) - 1))

/-- The hint fast-path test of the tapeimage `record_index::find`: for a
hint at position 0, `n < logical(hint->next, 0)`; otherwise additionally
`n >= logical(prev(hint)->next, pos - 1)`. -/
def tifInHint (index : List header) (zero : Int) (n : Int) (hint : Nat) : Bool :=
  let pos : Int := (hint : Int)
  let endL := tifLogical zero ((index.getD hint dummyHeader).next : Int) pos
  if pos == 0 then decide (n < endL)
  else
    let beginL := tifLogical zero ((index.getD (hint - 1) dummyHeader).next : Int) (pos - 1)
    decide (beginL ≤ n) && decide (n < endL)

/-- Phase 2 of `find`: the `std::find_if` linear scan from the phase-1
hit, comparing against `logical(rec.next, pos)` with the running
position. -/
def tifScan (zero n : Int) : List header → Int → Nat → Option Nat
  | [], _, _ => none
  | h :: t, pos, base =>
    if n < tifLogical zero (h.next : Int) pos then some base
    else tifScan zero n t (pos + 1) (base + 1)

/-- `record_index::find(n, hint)` (tapeimage): hint fast path, then the
two-phase search (`std::upper_bound` pretending logical = physical,
then the position-aware linear scan).  Falling off the end of the index
is the `std::logic_error` of the source. -/
def tapeimage.find (s : tapeimage) (n : Int) (hint : Nat) : Except Err Nat :=
  if tifInHint s.index s.zero n hint then .ok hint
  else
    let lower := s.index.findIdx fun h => decide (n < tifLogical s.zero (h.next : Int) 0)
    match tifScan s.zero n (s.index.drop lower) (lower : Int) lower with
    | some k => .ok k
    | none => .error ⟨.logicError, "seek: n = {} not found in index, end->next = {}"⟩

/-- The header-chasing loop of `tapeimage::seek` for targets beyond the
indexed region, with fuel. -/
def tapeimage.seekLoop (n : Int) :
    Nat → tapeimage → Except (Err × tapeimage) tapeimage
  | 0, s => .error (⟨.diverged, "model: while-loop fuel exhausted"⟩, s)
  | fuel+1, s =>
    let lastPos := s.index.length - 1
    let lastH := s.index.getD lastPos dummyHeader
    let realOffset := tifPhysical s.zero n (lastPos : Int)
    if realOffset == (lastH.next : Int) then
      match s.fp.seek (lastH.next : Int) with
      | .error (e, fp1) => .error (e, { s with fp := fp1 })
      | .ok fp1 =>
        -- current.move(current.bytes_left()): exhaust the record
        .ok { s with fp := fp1, curRemaining := 0 }
    else if realOffset < (lastH.next : Int) then
      match s.fp.seek realOffset with
      | .error (e, fp1) => .error (e, { s with fp := fp1 })
      | .ok fp1 =>
        let s1 := { s with fp := fp1 }
        let d := realOffset - s1.headTell
        if s1.curRemaining - d < 0 then
          .error (⟨.stdInvalidArgument, "advancing read_head past end-of-record"⟩, s1)
        else .ok { s1 with curRemaining := s1.curRemaining - d }
    else if lastH.type == 1 then
      -- seeking past a file mark is allowed; reads then report eof
      .ok s
    else
      match s.fp.seek (lastH.next : Int) with
      | .error (e, fp1) => .error (e, { s with fp := fp1 })
      | .ok fp1 =>
        match tapeimage.read_header_from_disk { s with fp := fp1 } with
        | .error e => .error e
        | .ok s1 => tapeimage.seekLoop n fuel s1.moveLast

/-- Fuel for the seek chase loop: every iteration that recurses has
consumed a 12-byte header from the inner stream, so the stream length
bounds the iteration count independently of the target offset. -/
def tapeimage.seekFuel (s : tapeimage) : Nat :=
  s.fp.mem.length + s.index.length + 4

/-- `tapeimage::seek`: reject offsets above `2^32 - 1` up front, then
either relocate inside the indexed region (honouring the
end-of-record fast path) or chase headers forward. -/
def tapeimage.seek (s : tapeimage) (n : Int) :
    Except (Err × tapeimage) tapeimage :=
  if (4294967295 : Int) < n then
    .error (⟨.invalidArgs,
      "Too big seek offset. TIF protocol does not support files larger than 4GB"⟩, s)
  else if s.contains n then
    match s.find n s.curPos with
    | .error e => .error (e, s)
    | .ok nextPos =>
      let realOffset := tifPhysical s.zero n (nextPos : Int)
      let prevH := s.index.getD (nextPos - 1) dummyHeader
      if 0 < nextPos && realOffset == (prevH.next : Int) + 12 then
        -- position at the end of the preceding record instead
        match s.fp.seek (prevH.next : Int) with
        | .error (e, fp1) => .error (e, { s with fp := fp1 })
        | .ok fp1 =>
          .ok { s with fp := fp1, curPos := nextPos - 1, curRemaining := 0 }
      else
        match s.fp.seek realOffset with
        | .error (e, fp1) => .error (e, { s with fp := fp1 })
        | .ok fp1 =>
          let nextH := s.index.getD nextPos dummyHeader
          let base := (prevH.next : Int) + 12
          let s1 := { s with fp := fp1, curPos := nextPos,
                             curRemaining := (nextH.next : Int) - base }
          let d := realOffset - s1.headTell
          if s1.curRemaining - d < 0 then
            .error (⟨.stdInvalidArgument, "advancing read_head past end-of-record"⟩, s1)
          else .ok { s1 with curRemaining := s1.curRemaining - d }
  else
    tapeimage.seekLoop n s.seekFuel s.moveLast

/-- The `tapeimage` constructor: record the inner stream's position as
the address map's `zero` (a memfile `tell` cannot fail, so the
`catch (lfp::error)` fallback to zero is not exercised), then parse the
first header from disk and point the read head at it
(`read_head(index.last(), addr.base())`).  On a parse failure the
constructor releases the inner stream and rethrows: the error carries
the still-open memfile. -/
def tapeimage.open (f : memfile) : Except (Err × memfile) tapeimage :=
  let s0 : tapeimage := { zero := (f.pos : Int), fp := f, index := [],
                          curPos := 0, curRemaining := 0, recovery := .ok }
  match s0.read_header_from_disk with
  | .error (e, s1) => .error (e, s1.fp)
  | .ok s1 =>
    let lastH := s1.index.getD (s1.index.length - 1) dummyHeader
    .ok { s1 with curPos := s1.index.length - 1,
                  curRemaining := (lastH.next : Int) - (s1.zero + 12) }

/-- `lfp_tapeimage_open`: null inner gives null; any constructor failure
is caught and gives null, with the inner stream (released, not closed)
handed back to the caller — modelled by returning it in the second
component.  `some` in the second component means the caller still owns a
live, unclosed stream. -/
def lfp_tapeimage_open (f : Option memfile) : Option tapeimage × Option memfile :=
  match f with
  | none => (none, none)
  | some m =>
    match tapeimage.open m with
    | .ok t => (some t, none)
    | .error (_, m1) => (none, some m1)

/-! ## The rp66 decoder (`src/src/rp66.cpp`) -/

/-- `lfp::header` (rp66): a 16-bit length, the two magic bytes, and the
augmenting physical `offset` the code stores alongside. -/
structure vrheader where
  length : Nat
  format : Nat
  major : Nat
  offset : Int
deriving DecidableEq, Repr

/-- Default rp66 header used to model out-of-range vector access. -/
def dummyVr : vrheader := ⟨0, 0, 0, 0⟩

/-- `address_map::logical` (rp66): `addr - 4*(1 + record) - zero`. -/
def rpLogical (zero addr : Int) (record : Int) : Int :=
  addr - 4 * (1 + record) - zero

/-- `address_map::physical` (rp66): `addr + 4*(1 + record) + zero`. -/
def rpPhysical (zero addr : Int) (record : Int) : Int :=
  addr + 4 * (1 + record) + zero

/-- The state of a `lfp::rp66` handle.  `idx` is the *underlying* vector
of the `record_index`, ghost node first; the public `size()` is
`idx.length - 1` and `index_of` subtracts one.  `curPos` is the read
head's underlying iterator position (0 = the ghost). -/
structure rp66 where
  zero : Int
  fp : memfile
  idx : List vrheader
  curPos : Nat
  curRemaining : Int
deriving DecidableEq, Repr

/-- The header the rp66 read head points at. -/
def rp66.cur (s : rp66) : vrheader :=
  s.idx.getD s.curPos dummyVr

/-- `read_head::tell` (rp66): `(*this)->offset + (*this)->length - remaining`. -/
def rp66.headTell (s : rp66) : Int :=
  s.cur.offset + (s.cur.length : Int) - s.curRemaining

/-- `rp66::eof` forwards the inner stream's eof. -/
def rp66.eof (s : rp66) : Bool :=
  s.fp.eof

/-- `rp66::tell`: `addr.logical(current.tell(), index_of(current))`. -/
def rp66.tell (s : rp66) : Int :=
  rpLogical s.zero s.headTell ((s.curPos : Int) - 1)

/-- `record_index::append` (rp66). -/
def rp66.append (s : rp66) (h : vrheader) : rp66 :=
  { s with idx := s.idx ++ [h] }

/-- The `rp66` constructor: `zero` is the inner stream's position
(`baseaddr`'s catch cannot fire on a memfile), the index starts with the
ghost node, and the read head is the exhausted ghost.  It parses
nothing, so it cannot fail over a memfile. -/
def rp66.open (f : memfile) : rp66 :=
  let zero : Int := (f.pos : Int)
  let ghost : vrheader := { length := 4, format := 0, major := 255, offset := zero - 4 }
  { zero := zero, fp := f, idx := [ghost], curPos := 0, curRemaining := 0 }

/-- `rp66::read_header_from_disk`: read 4 bytes; on a little-endian host
the two length bytes are reversed, giving the big-endian length; the
format/major magic is strictly validated (`protocol_fatal` on mismatch);
a zero-byte read at inner EOF is accepted as end-of-stream (no append);
a short read is `io_error`. -/
def rp66.read_header_from_disk (s0 : rp66) : Except (Err × rp66) rp66 :=
  let r := s0.fp.readinto 4
  let b := r.1
  let s := { s0 with fp := r.2.2 }
  match r.2.1 with
  | .ok =>
    let len := 256 * (b.getD 0 0) + (b.getD 1 0)
    let fmt := b.getD 2 0
    let mjr := b.getD 3 0
    if fmt != 255 || mjr != 1 then
      .error (⟨.protocolFatal, "rp66: Incorrect format version in Visible Record {}"⟩, s)
    else
      let lastH := s.idx.getD (s.idx.length - 1) dummyVr
      let base := if s.idx.length - 1 == 0 then s.zero
                  else lastH.offset + (lastH.length : Int)
      .ok (s.append { length := len, format := fmt, major := mjr, offset := base })
  | .okincomplete =>
    .error (⟨.ioError,
      "rp66: incomplete read of Visible Record Header, recovery not implemented"⟩, s)
  | .eof =>
    if b.length == 0 then .ok s
    else .error (⟨.unexpectedEof, "rp66: unexpected EOF when reading header - got {} bytes"⟩, s)
  | _ => .error (⟨.notImplemented,
      "rp66: unhandled error code in read_header_from_disk"⟩, s)

/-- `current.move(index.last())` (rp66): `remaining = last->length - 4`. -/
def rp66.moveLast (s : rp66) : rp66 :=
  let lastH := s.idx.getD (s.idx.length - 1) dummyVr
  { s with curPos := s.idx.length - 1, curRemaining := (lastH.length : Int) - 4 }

/-- The private single-chunk `rp66::readinto(void*, int64)`: drain the
while-exhausted loop (indexing new records or repositioning to an
already-indexed one), then read one chunk of at most
`min(len, bytes_left)` bytes. -/
def rp66.readOne (len : Int) : Nat → rp66 → Except (Err × rp66) (List Nat × rp66)
  | 0, s => .error (⟨.diverged, "model: while-loop fuel exhausted"⟩, s)
  | fuel+1, s =>
    if s.curRemaining == 0 then
      if s.eof then .ok ([], s)
      else if s.curPos == s.idx.length - 1 then
        let indexsize := s.idx.length - 1
        match s.read_header_from_disk with
        | .error e => .error e
        | .ok s1 =>
          if indexsize != s1.idx.length - 1 then rp66.readOne len fuel s1.moveLast
          else rp66.readOne len fuel s1
      else
        -- next = current.next_record(); fp->seek(next.tell()); current.move(next)
        let nxt := s.idx.getD (s.curPos + 1) dummyVr
        match s.fp.seek (nxt.offset + 4) with
        | .error (e, fp1) => .error (e, { s with fp := fp1 })
        | .ok fp1 =>
          rp66.readOne len fuel
            { s with fp := fp1, curPos := s.curPos + 1,
                     curRemaining := (nxt.length : Int) - 4 }
    else
      let toRead := min len s.curRemaining
      let r := s.fp.readinto toRead.toNat
      let n : Int := (r.1.length : Int)
      if s.curRemaining - n < 0 then
        .error (⟨.stdInvalidArgument, "advancing read_head past end-of-record"⟩,
                { s with fp := r.2.2 })
      else
        .ok (r.1, { s with fp := r.2.2, curRemaining := s.curRemaining - n })

/-- The outer loop of the public `rp66::readinto`: repeat the private
read until the request is filled (*ok*), the inner stream ends (*eof*,
or `unexpected_eof` mid-record), or no progress is made
(*okincomplete*).  The `"tapeimage:"` prefix in the unexpected-eof
message is the source's own copy-paste. -/
def rp66.readLoop (acc : List Nat) (toRead : Int) :
    Nat → rp66 → Except (Err × rp66) (List Nat × Status × rp66)
  | 0, s => .error (⟨.diverged, "model: while-loop fuel exhausted"⟩, s)
  | fuel+1, s =>
    match rp66.readOne toRead (s.fp.mem.length + s.idx.length + 2) s with
    | .error e => .error e
    | .ok (bytes, s1) =>
      let n : Int := (bytes.length : Int)
      let acc1 := acc ++ bytes
      let toRead1 := toRead - n
      if toRead1 == 0 then .ok (acc1, Status.ok, s1)
      else if s1.eof then
        if s1.curRemaining == 0 then .ok (acc1, Status.eof, s1)
        else .error (⟨.unexpectedEof,
          "tapeimage: unexpected EOF when reading record - got {} bytes, expected there to be {} more"⟩, s1)
      else if n == 0 then .ok (acc1, Status.okincomplete, s1)
      else rp66.readLoop acc1 toRead1 fuel s1

/-- Fuel for the rp66 loops, dominating every terminating execution the
theorems discuss. -/
def rp66.fuelFor (s : rp66) (len : Int) : Nat :=
  len.toNat + s.fp.mem.length + s.idx.length + 4

/-- The public `rp66::readinto(dst, len, bytes_read)`. -/
def rp66.readinto (s : rp66) (len : Int) :
    Except (Err × rp66) (List Nat × Status × rp66) :=
  rp66.readLoop [] len (s.fuelFor len) s

/-- `record_index::contains` (rp66):
`n < addr.logical(last->offset + last->length, size())`. -/
def rp66.contains (s : rp66) (n : Int) : Bool :=
  let lastH := s.idx.getD (s.idx.length - 1) dummyVr
  decide (n < rpLogical s.zero (lastH.offset + (lastH.length : Int))
            ((s.idx.length : Int) - 1))

/-- The hint fast-path test of the rp66 `record_index::find`.  Note the
source computes the lower bound `begin` from the *hint's own* end
(`hint->offset + hint->length`) with record number `pos - 1` — not from
the previous record's end as the tapeimage variant does. -/
def rpInHint (idx : List vrheader) (zero : Int) (n : Int) (hint : Nat) : Bool :=
  let pos : Int := (hint : Int) - 1
  let h := idx.getD hint dummyVr
  let endL := rpLogical zero (h.offset + (h.length : Int)) pos
  if pos == 0 then decide (n < endL)
  else
    let beginL := rpLogical zero (h.offset + (h.length : Int)) (pos - 1)
    decide (beginL ≤ n) && decide (n < endL)

/-- Phase 2 of the rp66 `find`: position-aware linear scan. -/
def rpScan (zero n : Int) : List vrheader → Int → Nat → Option Nat
  | [], _, _ => none
  | h :: t, pos, base =>
    if n < rpLogical zero (h.offset + (h.length : Int)) pos then some base
    else rpScan zero n t (pos + 1) (base + 1)

/-- `record_index::find(n, hint)` (rp66): hint fast path, then the
two-phase search over the public range (the ghost is excluded from
phase 1 because `begin()` is the underlying begin plus one). -/
def rp66.find (s : rp66) (n : Int) (hint : Nat) : Except Err Nat :=
  if rpInHint s.idx s.zero n hint then .ok hint
  else
    let pub := s.idx.drop 1
    let lower := 1 + pub.findIdx fun h =>
      decide (n < rpLogical s.zero (h.offset + (h.length : Int)) 0)
    match rpScan s.zero n (s.idx.drop lower) ((lower : Int) - 1) lower with
    | some k => .ok k
    | none => .error ⟨.logicError, "seek: n = {} not found in index, last indexed byte {}"⟩

/-- The header-chasing loop of `rp66::seek` for targets beyond the
indexed region. -/
def rp66.seekLoop (n : Int) : Nat → rp66 → Except (Err × rp66) rp66
  | 0, s => .error (⟨.diverged, "model: while-loop fuel exhausted"⟩, s)
  | fuel+1, s =>
    let indexsize := s.idx.length - 1
    let lastH := s.idx.getD (s.idx.length - 1) dummyVr
    let pos : Int := (s.idx.length : Int) - 2
    let realOffset := rpPhysical s.zero n pos
    let endP := lastH.offset + (lastH.length : Int)
    if realOffset < endP then
      match s.fp.seek realOffset with
      | .error (e, fp1) => .error (e, { s with fp := fp1 })
      | .ok fp1 =>
        let s1 := { s with fp := fp1 }
        let d := realOffset - s1.headTell
        if s1.curRemaining - d < 0 then
          .error (⟨.stdInvalidArgument, "advancing read_head past end-of-record"⟩, s1)
        else .ok { s1 with curRemaining := s1.curRemaining - d }
    else if realOffset == endP then
      match s.fp.seek endP with
      | .error (e, fp1) => .error (e, { s with fp := fp1 })
      | .ok fp1 => .ok { s with fp := fp1, curRemaining := 0 }
    else
      match s.fp.seek endP with
      | .error (e, fp1) => .error (e, { s with fp := fp1 })
      | .ok fp1 =>
        let s1 := { s with fp := fp1, curRemaining := 0 }
        match s1.read_header_from_disk with
        | .error e => .error e
        | .ok s2 =>
          let s3 := if indexsize != s2.idx.length - 1 then s2.moveLast else s2
          if s3.eof then
            if indexsize == s3.idx.length - 1 then .ok s3
            else
              let pos2 : Int := (s3.idx.length : Int) - 2
              let realOffset2 := rpPhysical s3.zero n pos2
              let skip := min (realOffset2 - s3.headTell) s3.curRemaining
              if s3.curRemaining - skip < 0 then
                .error (⟨.stdInvalidArgument, "advancing read_head past end-of-record"⟩, s3)
              else .ok { s3 with curRemaining := s3.curRemaining - skip }
          else rp66.seekLoop n fuel s3

/-- Fuel for the rp66 seek chase loop: every iteration that recurses
has consumed a 4-byte header from the inner stream. -/
def rp66.seekFuel (s : rp66) : Nat :=
  s.fp.mem.length + s.idx.length + 4

/-- `rp66::seek`: no addressable-range check; relocate inside the index
(via `find`, called twice in the source with the same pure result) or
chase headers forward.  Note there is no 4 GiB rejection here. -/
def rp66.seek (s : rp66) (n : Int) : Except (Err × rp66) rp66 :=
  if s.contains n then
    match s.find n s.curPos with
    | .error e => .error (e, s)
    | .ok fnd =>
      let pos : Int := (fnd : Int) - 1
      let realOffset := rpPhysical s.zero n pos
      match s.fp.seek realOffset with
      | .error (e, fp1) => .error (e, { s with fp := fp1 })
      | .ok fp1 =>
        let h := s.idx.getD fnd dummyVr
        let s1 := { s with fp := fp1, curPos := fnd,
                           curRemaining := (h.length : Int) - 4 }
        let d := realOffset - s1.headTell
        if s1.curRemaining - d < 0 then
          .error (⟨.stdInvalidArgument, "advancing read_head past end-of-record"⟩, s1)
        else .ok { s1 with curRemaining := s1.curRemaining - d }
  else
    rp66.seekLoop n s.seekFuel s.moveLast

/-- `lfp_rp66_open`: null inner gives null; over a memfile the
constructor cannot throw (it performs no parsing), so construction
always succeeds and the handle takes ownership of the inner stream. -/
def lfp_rp66_open (f : Option memfile) : Option rp66 × Option memfile :=
  match f with
  | none => (none, none)
  | some m => (some (rp66.open m), none)

/-! ## Well-formed framed byte streams

A well-formed stream is the encoding of a list of record payloads.  The
encoders below follow §6.1/§6.2 of the wire formats: tape-image records
carry a 12-byte `type/prev/next` little-endian header and the stream
ends with a *file* mark whose `next` is the file size; rp66 visible
records carry a 4-byte big-endian-length + `FF 01` header and the stream
ends exactly on a record boundary.
-/

/-- Total payload length of a record list. -/
def sumLen (ps : List (List Nat)) : Nat :=
  (ps.map List.length).sum

/-- The 12 bytes of a tape-image header. -/
def tifHeaderBytes (t p nx : Nat) : List Nat :=
  leBytes4 t ++ leBytes4 p ++ leBytes4 nx

/-- Encode tape-image records starting at absolute offset `off`, the
previous header sitting at `prev`; a *file* mark terminates the
stream. -/
def encodeTifFrom : List (List Nat) → Nat → Nat → List Nat
  | [], off, prev => tifHeaderBytes 1 prev (off + 12)
  | p :: rest, off, prev =>
    tifHeaderBytes 0 prev (off + 12 + p.length) ++ p ++
      encodeTifFrom rest (off + 12 + p.length) off

/-- A complete well-formed tape-image stream for payload list `ps`. -/
def encodeTif (ps : List (List Nat)) : List Nat :=
  encodeTifFrom ps 0 0

/-- A complete well-formed rp66 stream: each record is a 4-byte header
(16-bit big-endian length including the header, then `FF 01`) followed
by its payload. -/
def encodeRp66 : List (List Nat) → List Nat
  | [] => []
  | p :: rest =>
    [(p.length + 4) / 256 % 256, (p.length + 4) % 256, 255, 1] ++ p ++ encodeRp66 rest

/-- The spec-side notion used by the `find` contract (§4.5, §3): record
`hint`'s *payload covers* logical offset `L` when `L` lies in
`[logical end of the previous record, logical end of hint)` — for the
first record, in `[0, logical end)`.  Stated over the rp66 underlying
(ghost-inclusive) index with `index_of` positions, to compare against
the fast-path test the source actually performs. -/
def rpCoversSpec (idx : List vrheader) (zero : Int) (L : Int) (hint : Nat) : Bool :=
  let pos : Int := (hint : Int) - 1
  let h := idx.getD hint dummyVr
  let endL := rpLogical zero (h.offset + (h.length : Int)) pos
  if pos == 0 then decide (0 ≤ L) && decide (L < endL)
  else
    let p := idx.getD (hint - 1) dummyVr
    let beginL := rpLogical zero (p.offset + (p.length : Int)) (pos - 1)
    decide (beginL ≤ L) && decide (L < endL)

/-! ## Concrete inputs used by scenarios, witnesses and counterexamples -/

/-- The 32-byte tape-image stream of scenario S1: a record header
(`type 0, prev 0, next 0x14`), payload `01..08`, and a file mark
(`type 1, prev 0, next 0x20`). -/
def s1bytes : List Nat :=
  [0, 0, 0, 0,  0, 0, 0, 0,  20, 0, 0, 0,
   1, 2, 3, 4,  5, 6, 7, 8,
   1, 0, 0, 0,  0, 0, 0, 0,  32, 0, 0, 0]

/-- The S1 payload. -/
def s1payload : List Nat := [1, 2, 3, 4, 5, 6, 7, 8]

/-- A one-record rp66 stream (`length 6, FF 01`, payload `AA BB`), used
to exercise `rp66::seek` with an offset beyond 4 GiB. -/
def rp66SmallFile : memfile :=
  { mem := [0, 6, 255, 1, 170, 187], pos := 0 }

/-- A one-record rp66 stream whose header carries format byte `0xFE`
instead of `0xFF`: parsing it must be fatal (scenario S5's shape). -/
def rp66BadFmtFile : memfile :=
  { mem := [0, 6, 254, 1, 170, 187], pos := 0 }

/-- A two-record rp66 record index (ghost, then two 8-byte records with
4-byte payloads at physical 0 and 8), with base 0: the concrete index on
which the hint fast path of `find` is shown dead. -/
def rpCexIdx : List vrheader :=
  [⟨4, 0, 255, -4⟩, ⟨8, 255, 1, 0⟩, ⟨8, 255, 1, 8⟩]

/-- An rp66 handle over `rpCexIdx` whose read head sits on the second
record (underlying position 2) with its full payload remaining. -/
def rpCexState : rp66 :=
  { zero := 0, fp := { mem := [], pos := 16 }, idx := rpCexIdx,
    curPos := 2, curRemaining := 4 }

/-- A tapeimage handle in sticky recovery whose current record is a file
mark: reads return immediately, showing the recovery status override. -/
def tifRecWitness1 : tapeimage :=
  { zero := 0, fp := { mem := s1bytes, pos := 32 },
    index := [⟨0, 0, 20⟩, ⟨1, 0, 32⟩], curPos := 1, curRemaining := 0,
    recovery := .protocolTryRecovery }

/-- A tapeimage handle in sticky recovery that needs a new header but
whose inner stream is exhausted: the next read throws, and the flag
survives the throw. -/
def tifRecWitness2 : tapeimage :=
  { zero := 0, fp := { mem := [0, 0, 0, 0,  0, 0, 0, 0,  20, 0, 0, 0], pos := 12 },
    index := [⟨0, 0, 20⟩], curPos := 0, curRemaining := 0,
    recovery := .protocolTryRecovery }

/-- A tapeimage handle in sticky recovery about to parse a header whose
type field is unknown (`0xFFFFFFFF`): the second anomaly of the first
kind. -/
def tifRecWitness3 : tapeimage :=
  { zero := 0,
    fp := { mem := [255, 255, 255, 255,  0, 0, 0, 0,  48, 0, 0, 0], pos := 0 },
    index := [⟨0, 0, 24⟩], curPos := 0, curRemaining := 0,
    recovery := .protocolTryRecovery }

/-- A tapeimage handle in sticky recovery about to parse a header whose
back-pointer disagrees with the descriptor two positions back: the
second anomaly of the second kind. -/
def tifRecWitness4 : tapeimage :=
  { zero := 0,
    fp := { mem := [0, 0, 0, 0,  99, 0, 0, 0,  120, 0, 0, 0], pos := 0 },
    index := [⟨0, 0, 24⟩, ⟨0, 24, 48⟩], curPos := 1, curRemaining := 0,
    recovery := .protocolTryRecovery }

/-- The failing input of the memfile read-status claim: a three-byte
buffer read with `len = 5`. -/
def memCexFile : memfile := { mem := [1, 2, 3], pos := 0 }

/-! ## Proof infrastructure for the round-trip theorem -/

/-- The decoder state "about to parse the header at `off`" while the
still-unread suffix of a well-formed tape-image stream encodes the
payloads `rest` (the previous header sat at `prev`): the read head is
exhausted on the last indexed record (a real record ending exactly at
`off`), and the index is consistent with the back-pointer the incoming
header will carry. -/
def tifAligned (s : tapeimage) (rest : List (List Nat)) (off prev : Nat) : Prop :=
  s.zero = 0 ∧ s.recovery = .ok ∧
  s.fp.pos = off ∧ s.fp.mem.drop off = encodeTifFrom rest off prev ∧
  s.fp.mem.length < 4294967296 ∧
  s.index ≠ [] ∧ s.curPos = s.index.length - 1 ∧ s.curRemaining = 0 ∧
  (s.index.getD (s.index.length - 1) dummyHeader).next = off ∧
  (s.index.getD (s.index.length - 1) dummyHeader).type = 0 ∧
  (2 ≤ s.index.length → (s.index.getD (s.index.length - 2) dummyHeader).next = prev) ∧
  prev < off + 12

/-- The rp66 decoder state "about to parse the header at `off`" while
the still-unread suffix encodes the payloads `rest`: the read head is
exhausted on the last underlying index entry, whose base computation
(`zero` for the ghost-only index, `last->offset + last->length`
otherwise) lands exactly at `off`. -/
def rpAligned (s : rp66) (rest : List (List Nat)) (off : Nat) : Prop :=
  s.zero = 0 ∧
  s.fp.pos = off ∧ s.fp.mem.drop off = encodeRp66 rest ∧
  s.idx ≠ [] ∧ s.curPos = s.idx.length - 1 ∧ s.curRemaining = 0 ∧
  ((if s.idx.length - 1 == 0 then s.zero
    else (s.idx.getD (s.idx.length - 1) dummyVr).offset +
         ((s.idx.getD (s.idx.length - 1) dummyVr).length : Int)) = (off : Int)) ∧
  off ≤ s.fp.mem.length ∧
  (∀ p ∈ rest, p.length + 4 ≤ 65535)

/-- The first nonempty payload of a record list together with the
records after it (`([], [])` when every payload is empty): what one call
of the private rp66 read returns, and where it leaves the decoder. -/
def firstChunk : List (List Nat) → List Nat × List (List Nat)
  | [] => ([], [])
  | p :: rest => if p.isEmpty then firstChunk rest else (p, rest)

/-! # Theorems -/

/-- Claim C3: for every 64-bit logical offset `L`, physical offset `P`,
base `z` and record position `r`, the address maps of both decoders
satisfy `physical(L, r) = L + (r + 1)·header_size + z` and
`logical(P, r) = P - (r + 1)·header_size - z` (header size 12 for
tape-image, 4 for rp66); consequently `logical` and `physical` are
mutually inverse at every fixed `r`. -/
theorem claim3_address_map (L P z r : Int) :
    tifPhysical z L r = L + (r + 1) * 12 + z ∧
    tifLogical z P r = P - (r + 1) * 12 - z ∧
    rpPhysical z L r = L + (r + 1) * 4 + z ∧
    rpLogical z P r = P - (r + 1) * 4 - z ∧
    tifLogical z (tifPhysical z L r) r = L ∧
    tifPhysical z (tifLogical z P r) r = P ∧
    rpLogical z (rpPhysical z L r) r = L ∧
    rpPhysical z (rpLogical z P r) r = P := by
  unfold tifPhysical tifLogical rpPhysical rpLogical
  exact ⟨by ring, by ring, by ring, by ring, by ring, by ring, by ring, by ring⟩

/-- Claim C8 (code bug), evaluated at the failing input: reading 5 bytes
from a 3-byte memfile copies the 3 available bytes and advances the
cursor to the end — but the status returned is `okincomplete`, not the
`eof` the claim (and the repository's own `test/utils.hpp`) requires,
even though the post-state is at end-of-buffer. -/
theorem claim8_memfile_short_read_status :
    memfile.readinto memCexFile 5 =
      ([1, 2, 3], Status.okincomplete, { mem := [1, 2, 3], pos := 3 }) ∧
    Status.okincomplete ≠ Status.eof ∧
    memfile.eof { mem := [1, 2, 3], pos := 3 } = true := by
  exact ⟨rfl, by decide, rfl⟩

/-- Claim C9: memfile `seek(n)` fails with *invalid-args* exactly when
`n < 0` or `n ≥ buffer_len`, leaves the position unchanged on failure,
and positions at `n` otherwise; in particular `n = buffer_len` (exactly
end-of-buffer) is rejected. -/
theorem claim9_memfile_seek (f : memfile) (n : Int) :
    (match memfile.seek f n with
     | .error (e, f1) => (n < 0 ∨ (f.mem.length : Int) ≤ n) ∧
         e.status = .invalidArgs ∧ f1 = f
     | .ok f1 => ¬(n < 0 ∨ (f.mem.length : Int) ≤ n) ∧
         f1.mem = f.mem ∧ (f1.pos : Int) = n) ∧
    (match memfile.seek f (f.mem.length : Int) with
     | .error (e, f1) => e.status = .invalidArgs ∧ f1 = f
     | .ok _ => False) := by
  constructor
  · unfold memfile.seek
    split_ifs with h1 h2
    · exact ⟨Or.inl h1, rfl, rfl⟩
    · exact ⟨Or.inr h2, rfl, rfl⟩
    · exact ⟨not_or.mpr ⟨h1, h2⟩, rfl, Int.toNat_of_nonneg (by omega)⟩
  · unfold memfile.seek
    split_ifs with h1 h2
    · exact ⟨rfl, rfl⟩
    · exact ⟨rfl, rfl⟩
    · exact absurd le_rfl h2

/-- Claim C4 (code bug), evaluated at the failing input: on the concrete
two-record rp66 index, logical offset 5 is covered by the second
record's payload (the spec-side `rpCoversSpec`), yet the source's
fast-path test `rpInHint` is false — its lower bound is computed from
the hint's own end, so the test is unsatisfiable for any hint past
public position 0 — and `find` reaches the same descriptor only through
the two-phase search. -/
theorem claim4_rp66_hint_fast_path_dead :
    rpCoversSpec rpCexIdx 0 5 2 = true ∧
    rpInHint rpCexIdx 0 5 2 = false ∧
    rp66.find rpCexState 5 2 = .ok 2 ∧
    rpCexState.idx = rpCexIdx := by
  exact ⟨by decide, by decide, rfl, rfl⟩

/-- Claim C7, counterexample: `rp66::seek` has no 4 GiB bound check.
Seeking to `2^32` on a one-record rp66 stream chases headers, moves the
inner stream (to physical 4), and finally fails with the *memfile's*
invalid-args (whose message does not mention the 4 GiB limit) — not
with the format-specific rejection the claim requires, and not without
moving the stream. -/
theorem claim7_rp66_seek_no_4gb_cex :
    (match rp66.seek (rp66.open rp66SmallFile) 4294967296 with
     | .error (e, s1) => e.status = .invalidArgs ∧ mentions4GB e.msg = false ∧
         s1.fp.pos = 4 ∧ rp66SmallFile.pos = 0
     | .ok _ => False) ∧ (4294967295 : Int) < 4294967296 := by
  exact ⟨⟨rfl, by decide, rfl, rfl⟩, by decide⟩

/-- Claim C7 as amended: the *tape-image* decoder's `seek(n)` with
`n > 2^32 - 1` fails with *invalid-args*, with a message mentioning the
4 GiB limit, and does not move the stream (the error carries the state
unchanged); the rp66 decoder performs no such check. -/
theorem claim7_tif_seek_rejects_4gb (s : tapeimage) (n : Int)
    (h : (4294967295 : Int) < n) :
    tapeimage.seek s n = .error (⟨.invalidArgs,
      "Too big seek offset. TIF protocol does not support files larger than 4GB"⟩, s) ∧
    mentions4GB
      "Too big seek offset. TIF protocol does not support files larger than 4GB" = true := by
  refine ⟨?_, by decide⟩
  unfold tapeimage.seek
  rw [if_pos h]

/-- Witness for the amended claim C7 at a concrete handle and offset. -/
theorem claim7_tif_seek_rejects_4gb_witness :
    tapeimage.seek tifRecWitness1 4294967296 = .error (⟨.invalidArgs,
      "Too big seek offset. TIF protocol does not support files larger than 4GB"⟩,
      tifRecWitness1) ∧
    mentions4GB
      "Too big seek offset. TIF protocol does not support files larger than 4GB" = true :=
  claim7_tif_seek_rejects_4gb tifRecWitness1 4294967296 (by decide)

/-- Claim C5, counterexample: opening the tape-image decoder over the S1
stream consumes 12 bytes from the inner stream (one real header is
parsed at construction) and leaves the read head on that real record
with its full 8-byte payload remaining — not on an exhausted virtual
ghost record with nothing parsed. -/
theorem claim5_tif_open_parses_cex :
    (match tapeimage.open ⟨s1bytes, 0⟩ with
     | .ok t => t.fp.pos = 12 ∧ t.index.length = 1 ∧ t.curRemaining = 8
     | .error _ => False) ∧ (12 : Nat) ≠ 0 ∧ (8 : Int) ≠ 0 := by
  exact ⟨⟨rfl, rfl, rfl⟩, by decide, by decide⟩

theorem validateHeader_ok_shape (s : tapeimage) (ty pv nx : Nat) (s1 : tapeimage)
    (h : tapeimage.validateHeader s ty pv nx = .ok s1) :
    s1.zero = s.zero ∧ s1.fp = s.fp ∧ s1.curPos = s.curPos ∧
    s1.curRemaining = s.curRemaining ∧
    (∃ h0, s1.index = s.index ++ [h0]) ∧
    (s1.recovery = s.recovery ∨ s1.recovery = .protocolTryRecovery) := by
  unfold tapeimage.validateHeader at h
  dsimp only at h
  split_ifs at h <;>
    first
      | exact Except.noConfusion h
      | (injection h with h; subst h;
         refine ⟨rfl, rfl, rfl, rfl, ⟨_, rfl⟩, ?_⟩;
         first | exact Or.inl rfl | exact Or.inr rfl)

theorem read_header_ok_shape (s0 s1 : tapeimage)
    (h : tapeimage.read_header_from_disk s0 = .ok s1) :
    s1.zero = s0.zero ∧ s1.fp.mem = s0.fp.mem ∧ s1.fp.pos = s0.fp.pos + 12 ∧
    s1.curPos = s0.curPos ∧ s1.curRemaining = s0.curRemaining ∧
    (∃ h0, s1.index = s0.index ++ [h0]) ∧
    (s1.recovery = s0.recovery ∨ s1.recovery = .protocolTryRecovery) := by
  unfold tapeimage.read_header_from_disk memfile.readinto at h
  dsimp only at h
  split_ifs at h with hlt
  all_goals dsimp only at h
  · have hmin : min 12 (s0.fp.mem.length - s0.fp.pos) = 12 := by omega
    rw [hmin] at h
    obtain ⟨hz, hfp, hcp, hcr, hidx, hrec⟩ := validateHeader_ok_shape _ _ _ _ _ h
    refine ⟨hz, ?_, ?_, hcp, hcr, hidx, hrec⟩
    · rw [hfp]
    · rw [hfp]

theorem claim5_tif_open_first_header (f : memfile) (t : tapeimage)
    (h : tapeimage.open f = .ok t) :
    t.zero = (f.pos : Int) ∧ t.fp.mem = f.mem ∧ t.fp.pos = f.pos + 12 ∧
    t.index.length = 1 ∧ t.curPos = 0 ∧
    t.curRemaining = ((t.index.getD 0 dummyHeader).next : Int) - ((f.pos : Int) + 12) := by
  unfold tapeimage.open at h
  dsimp only at h
  split at h
  · exact Except.noConfusion h
  case _ s1 heq =>
    injection h with h
    subst h
    obtain ⟨hz, hmem, hpos, hcp, hcr, ⟨h0, hidx⟩, hrec⟩ := read_header_ok_shape _ _ heq
    dsimp only at hz hmem hpos hidx
    rw [List.nil_append] at hidx
    simp only [hidx, hz, hmem, hpos, List.length_singleton]
    exact ⟨trivial, trivial, trivial, trivial, trivial, trivial⟩

theorem validateHeader_err_shape (s : tapeimage) (ty pv nx : Nat) (e : Err) (s1 : tapeimage)
    (h : tapeimage.validateHeader s ty pv nx = .error (e, s1)) :
    s1.zero = s.zero ∧ s1.fp = s.fp ∧ s1.index = s.index ∧
    s1.curPos = s.curPos ∧ s1.curRemaining = s.curRemaining ∧
    (s1.recovery = s.recovery ∨ s1.recovery = .protocolTryRecovery) := by
  unfold tapeimage.validateHeader at h
  dsimp only at h
  split_ifs at h <;>
    first
      | exact Except.noConfusion h
      | (injection h with h; injection h with h1 h2; subst h2;
         refine ⟨rfl, rfl, rfl, rfl, rfl, ?_⟩;
         first | exact Or.inl rfl | exact Or.inr rfl)

theorem read_header_err_shape (s0 : tapeimage) (e : Err) (s1 : tapeimage)
    (h : tapeimage.read_header_from_disk s0 = .error (e, s1)) :
    s1.zero = s0.zero ∧ s1.fp.mem = s0.fp.mem ∧ s1.index = s0.index ∧
    s1.curPos = s0.curPos ∧ s1.curRemaining = s0.curRemaining ∧
    (s1.recovery = s0.recovery ∨ s1.recovery = .protocolTryRecovery) := by
  unfold tapeimage.read_header_from_disk memfile.readinto at h
  dsimp only at h
  split_ifs at h
  · -- short header read: protocol_failed_recovery with the advanced inner stream
    injection h with h; injection h with h1 h2; subst h2
    exact ⟨rfl, rfl, rfl, rfl, rfl, Or.inl rfl⟩
  · -- full header read: the validation cascade failed
    obtain ⟨hz, hfp, hidx, hcp, hcr, hrec⟩ := validateHeader_err_shape _ _ _ _ _ _ h
    rw [hfp]
    exact ⟨hz, rfl, hidx, hcp, hcr, hrec⟩

theorem readLoop_recovery_sticky (fuel : Nat) :
    ∀ (len : Int) (acc : List Nat) (s : tapeimage),
      s.recovery = .protocolTryRecovery →
      (match tapeimage.readLoop len acc fuel s with
       | .ok (_, s1) => s1.recovery = .protocolTryRecovery
       | .error (_, s1) => s1.recovery = .protocolTryRecovery) := by
  induction fuel with
  | zero => intro len acc s hs; exact hs
  | succ fuel ih =>
    intro len acc s hs
    unfold tapeimage.readLoop
    dsimp only
    by_cases h1 : s.eof = true
    · rw [if_pos h1]; exact hs
    rw [if_neg h1]
    by_cases h2 : (s.curRemaining == 0) = true
    · rw [if_pos h2]
      by_cases h3 : (s.curPos == s.index.length - 1) = true
      · rw [if_pos h3]
        rcases hh : tapeimage.read_header_from_disk s with ⟨e, s1⟩ | s1
        · obtain ⟨-, -, -, -, -, hrec⟩ := read_header_err_shape _ _ _ hh
          rcases hrec with hr | hr
          · show s1.recovery = Status.protocolTryRecovery
            rw [hr]; exact hs
          · exact hr
        · obtain ⟨-, -, -, -, -, -, hrec⟩ := read_header_ok_shape _ _ hh
          have hrec1 : s1.moveLast.recovery = .protocolTryRecovery := by
            rcases hrec with hr | hr <;> simp [tapeimage.moveLast, hr, hs]
          exact ih len acc s1.moveLast hrec1
      · rw [if_neg h3]
        rcases hk : memfile.seek s.fp ((s.cur.next : Int) + 12) with ⟨e, fp1⟩ | fp1
        · exact hs
        · exact ih len acc _ hs
    · rw [if_neg h2]
      by_cases h4 : s.curRemaining - ((s.fp.readinto (min len s.curRemaining).toNat).1.length : Int) < 0
      · rw [if_pos h4]; exact hs
      rw [if_neg h4]
      by_cases h5 : ((s.fp.readinto (min len s.curRemaining).toNat).2.1 == Status.okincomplete) = true
      · rw [if_pos h5]; exact hs
      rw [if_neg h5]
      by_cases h6 : (((s.fp.readinto (min len s.curRemaining).toNat).2.1 == Status.eof) &&
          (s.curRemaining - ((s.fp.readinto (min len s.curRemaining).toNat).1.length : Int) != 0)) = true
      · rw [if_pos h6]; exact hs
      rw [if_neg h6]
      by_cases h7 : ((s.fp.readinto (min len s.curRemaining).toNat).2.1 == Status.eof) = true
      · rw [if_pos h7]; exact hs
      rw [if_neg h7]
      by_cases h8 : (((s.fp.readinto (min len s.curRemaining).toNat).1.length : Int) == len) = true
      · rw [if_pos h8]; exact hs
      rw [if_neg h8]
      exact ih _ _ _ hs

theorem seekLoop_recovery_sticky (fuel : Nat) :
    ∀ (n : Int) (s : tapeimage),
      s.recovery = .protocolTryRecovery →
      (match tapeimage.seekLoop n fuel s with
       | .ok s1 => s1.recovery = .protocolTryRecovery
       | .error (_, s1) => s1.recovery = .protocolTryRecovery) := by
  induction fuel with
  | zero => intro n s hs; exact hs
  | succ fuel ih =>
    intro n s hs
    unfold tapeimage.seekLoop
    dsimp only
    split_ifs with h1 h2 h3
    · rcases hk : s.fp.seek ((s.index.getD (s.index.length - 1) dummyHeader).next : Int)
        with ⟨e, fp1⟩ | fp1
      · exact hs
      · exact hs
    · rcases hk : s.fp.seek (tifPhysical s.zero n ((s.index.length - 1 : Nat) : Int))
        with ⟨e, fp1⟩ | fp1
      · exact hs
      · dsimp only
        split_ifs with h4
        · exact hs
        · exact hs
    · exact hs
    · rcases hk : s.fp.seek ((s.index.getD (s.index.length - 1) dummyHeader).next : Int)
        with ⟨e, fp1⟩ | fp1
      · exact hs
      · dsimp only
        rcases hh : tapeimage.read_header_from_disk { s with fp := fp1 } with ⟨e1, s1⟩ | s1
        · obtain ⟨-, -, -, -, -, hrec⟩ := read_header_err_shape _ _ _ hh
          show s1.recovery = Status.protocolTryRecovery
          rcases hrec with hr | hr
          · rw [hr]; exact hs
          · exact hr
        · obtain ⟨-, -, -, -, -, -, hrec⟩ := read_header_ok_shape _ _ hh
          have hrec1 : s1.moveLast.recovery = .protocolTryRecovery := by
            rcases hrec with hr | hr <;> simp [tapeimage.moveLast, hr, hs]
          exact ih n s1.moveLast hrec1

theorem seek_recovery_sticky (s : tapeimage) (n : Int)
    (hs : s.recovery = .protocolTryRecovery) :
    (match tapeimage.seek s n with
     | .ok s1 => s1.recovery = .protocolTryRecovery
     | .error (_, s1) => s1.recovery = .protocolTryRecovery) := by
  unfold tapeimage.seek
  dsimp only
  split_ifs with h1 h2
  · exact hs
  · rcases hf : s.find n s.curPos with e | fnd
    · exact hs
    · dsimp only
      split_ifs with h3
      · rcases hk : s.fp.seek ((s.index.getD (fnd - 1) dummyHeader).next : Int)
          with ⟨e, fp1⟩ | fp1
        · exact hs
        · exact hs
      · rcases hk : s.fp.seek (tifPhysical s.zero n (fnd : Int)) with ⟨e, fp1⟩ | fp1
        · exact hs
        · dsimp only
          split_ifs with h4
          · exact hs
          · exact hs
  · have hm : s.moveLast.recovery = .protocolTryRecovery := by
      simp [tapeimage.moveLast, hs]
    exact seekLoop_recovery_sticky _ n s.moveLast hm

theorem readinto_recovery_sticky (s : tapeimage) (len : Int)
    (hs : s.recovery = .protocolTryRecovery) :
    (match tapeimage.readinto s len with
     | .ok (_, st, s1) => st = .protocolTryRecovery ∧ s1.recovery = .protocolTryRecovery
     | .error (_, s1) => s1.recovery = .protocolTryRecovery) := by
  unfold tapeimage.readinto
  have hl := readLoop_recovery_sticky (s.fuelFor len) len [] s hs
  rcases hr : tapeimage.readLoop len [] (s.fuelFor len) s with ⟨e, s1⟩ | ⟨out, s1⟩
  · rw [hr] at hl; exact hl
  · rw [hr] at hl
    dsimp only at hl ⊢
    simp [hl]

theorem read_header_second_anomaly_type (s : tapeimage)
    (hs : s.recovery = .protocolTryRecovery)
    (hok : (s.fp.readinto 12).2.1 = .ok)
    (hty0 : le32 ((s.fp.readinto 12).1.getD 0 0) ((s.fp.readinto 12).1.getD 1 0)
      ((s.fp.readinto 12).1.getD 2 0) ((s.fp.readinto 12).1.getD 3 0) ≠ 0)
    (hty1 : le32 ((s.fp.readinto 12).1.getD 0 0) ((s.fp.readinto 12).1.getD 1 0)
      ((s.fp.readinto 12).1.getD 2 0) ((s.fp.readinto 12).1.getD 3 0) ≠ 1) :
    (match tapeimage.read_header_from_disk s with
     | .error (e, _) => e.status = .protocolFailedRecovery
     | .ok _ => False) := by
  unfold tapeimage.read_header_from_disk
  dsimp only
  rw [hok]
  dsimp only
  unfold tapeimage.validateHeader
  dsimp only
  have hcons : ((le32 ((s.fp.readinto 12).1.getD 0 0) ((s.fp.readinto 12).1.getD 1 0)
      ((s.fp.readinto 12).1.getD 2 0) ((s.fp.readinto 12).1.getD 3 0) == 0) ||
      (le32 ((s.fp.readinto 12).1.getD 0 0) ((s.fp.readinto 12).1.getD 1 0)
      ((s.fp.readinto 12).1.getD 2 0) ((s.fp.readinto 12).1.getD 3 0) == 1)) = false := by
    simp only [Bool.or_eq_false_iff, beq_eq_false_iff_ne, ne_eq]
    exact ⟨hty0, hty1⟩
  rw [hcons, hs]
  rw [if_pos (by decide : ((!false && (Status.protocolTryRecovery != Status.ok)) = true))]

theorem read_header_second_anomaly_backptr (s : tapeimage)
    (hs : s.recovery = .protocolTryRecovery)
    (hok : (s.fp.readinto 12).2.1 = .ok)
    (hcons : le32 ((s.fp.readinto 12).1.getD 0 0) ((s.fp.readinto 12).1.getD 1 0)
      ((s.fp.readinto 12).1.getD 2 0) ((s.fp.readinto 12).1.getD 3 0) = 0 ∨
      le32 ((s.fp.readinto 12).1.getD 0 0) ((s.fp.readinto 12).1.getD 1 0)
      ((s.fp.readinto 12).1.getD 2 0) ((s.fp.readinto 12).1.getD 3 0) = 1)
    (hnp : le32 ((s.fp.readinto 12).1.getD 4 0) ((s.fp.readinto 12).1.getD 5 0)
      ((s.fp.readinto 12).1.getD 6 0) ((s.fp.readinto 12).1.getD 7 0) <
      le32 ((s.fp.readinto 12).1.getD 8 0) ((s.fp.readinto 12).1.getD 9 0)
      ((s.fp.readinto 12).1.getD 10 0) ((s.fp.readinto 12).1.getD 11 0))
    (hlen : 2 ≤ s.index.length)
    (hmm : le32 ((s.fp.readinto 12).1.getD 4 0) ((s.fp.readinto 12).1.getD 5 0)
      ((s.fp.readinto 12).1.getD 6 0) ((s.fp.readinto 12).1.getD 7 0) ≠
      (s.index.getD (s.index.length - 2) dummyHeader).next) :
    (match tapeimage.read_header_from_disk s with
     | .error (e, _) => e.status = .protocolFailedRecovery
     | .ok _ => False) := by
  unfold tapeimage.read_header_from_disk
  dsimp only
  rw [hok]
  dsimp only
  unfold tapeimage.validateHeader
  dsimp only
  have hcons1 : ((le32 ((s.fp.readinto 12).1.getD 0 0) ((s.fp.readinto 12).1.getD 1 0)
      ((s.fp.readinto 12).1.getD 2 0) ((s.fp.readinto 12).1.getD 3 0) == 0) ||
      (le32 ((s.fp.readinto 12).1.getD 0 0) ((s.fp.readinto 12).1.getD 1 0)
      ((s.fp.readinto 12).1.getD 2 0) ((s.fp.readinto 12).1.getD 3 0) == 1)) = true := by
    rcases hcons with hc | hc
    · rw [hc]; exact Bool.true_or _
    · rw [hc]; exact Bool.or_true _
  rw [hcons1]
  rw [if_neg (by simp : ¬((!true && _) = true))]
  rw [if_pos rfl, if_pos rfl]
  rw [if_neg (by omega : ¬(le32 ((s.fp.readinto 12).1.getD 8 0) ((s.fp.readinto 12).1.getD 9 0)
      ((s.fp.readinto 12).1.getD 10 0) ((s.fp.readinto 12).1.getD 11 0) ≤
      le32 ((s.fp.readinto 12).1.getD 4 0) ((s.fp.readinto 12).1.getD 5 0)
      ((s.fp.readinto 12).1.getD 6 0) ((s.fp.readinto 12).1.getD 7 0)))]
  rw [if_pos hlen]
  rw [if_pos (bne_iff_ne.mpr hmm : (le32 ((s.fp.readinto 12).1.getD 4 0) ((s.fp.readinto 12).1.getD 5 0)
      ((s.fp.readinto 12).1.getD 6 0) ((s.fp.readinto 12).1.getD 7 0) !=
      (s.index.getD (s.index.length - 2) dummyHeader).next) = true)]
  rw [hs]
  rw [if_pos (by decide : ((Status.protocolTryRecovery != Status.ok) = true))]

theorem claim2_recovery_sticky :
    (∀ (s : tapeimage) (len : Int) (out : List Nat) (st : Status) (s1 : tapeimage),
       s.recovery = .protocolTryRecovery →
       tapeimage.readinto s len = .ok (out, st, s1) →
       st = .protocolTryRecovery ∧ s1.recovery = .protocolTryRecovery) ∧
    (∀ (s : tapeimage) (len : Int) (e : Err) (s1 : tapeimage),
       s.recovery = .protocolTryRecovery →
       tapeimage.readinto s len = .error (e, s1) →
       s1.recovery = .protocolTryRecovery) ∧
    (∀ (s : tapeimage) (n : Int), s.recovery = .protocolTryRecovery →
       (match tapeimage.seek s n with
        | .ok s1 => s1.recovery = .protocolTryRecovery
        | .error (_, s1) => s1.recovery = .protocolTryRecovery)) ∧
    (∀ (s : tapeimage), s.recovery = .protocolTryRecovery →
       (s.fp.readinto 12).2.1 = .ok →
       le32 ((s.fp.readinto 12).1.getD 0 0) ((s.fp.readinto 12).1.getD 1 0)
         ((s.fp.readinto 12).1.getD 2 0) ((s.fp.readinto 12).1.getD 3 0) ≠ 0 →
       le32 ((s.fp.readinto 12).1.getD 0 0) ((s.fp.readinto 12).1.getD 1 0)
         ((s.fp.readinto 12).1.getD 2 0) ((s.fp.readinto 12).1.getD 3 0) ≠ 1 →
       (match tapeimage.read_header_from_disk s with
        | .error (e, _) => e.status = .protocolFailedRecovery
        | .ok _ => False)) ∧
    (∀ (s : tapeimage), s.recovery = .protocolTryRecovery →
       (s.fp.readinto 12).2.1 = .ok →
       (le32 ((s.fp.readinto 12).1.getD 0 0) ((s.fp.readinto 12).1.getD 1 0)
         ((s.fp.readinto 12).1.getD 2 0) ((s.fp.readinto 12).1.getD 3 0) = 0 ∨
        le32 ((s.fp.readinto 12).1.getD 0 0) ((s.fp.readinto 12).1.getD 1 0)
         ((s.fp.readinto 12).1.getD 2 0) ((s.fp.readinto 12).1.getD 3 0) = 1) →
       le32 ((s.fp.readinto 12).1.getD 4 0) ((s.fp.readinto 12).1.getD 5 0)
         ((s.fp.readinto 12).1.getD 6 0) ((s.fp.readinto 12).1.getD 7 0) <
       le32 ((s.fp.readinto 12).1.getD 8 0) ((s.fp.readinto 12).1.getD 9 0)
         ((s.fp.readinto 12).1.getD 10 0) ((s.fp.readinto 12).1.getD 11 0) →
       2 ≤ s.index.length →
       le32 ((s.fp.readinto 12).1.getD 4 0) ((s.fp.readinto 12).1.getD 5 0)
         ((s.fp.readinto 12).1.getD 6 0) ((s.fp.readinto 12).1.getD 7 0) ≠
         (s.index.getD (s.index.length - 2) dummyHeader).next →
       (match tapeimage.read_header_from_disk s with
        | .error (e, _) => e.status = .protocolFailedRecovery
        | .ok _ => False)) := by
  refine ⟨?_, ?_, ?_, ?_, ?_⟩
  · intro s len out st s1 hs h
    have hres := readinto_recovery_sticky s len hs
    rw [h] at hres
    exact hres
  · intro s len e s1 hs h
    have hres := readinto_recovery_sticky s len hs
    rw [h] at hres
    exact hres
  · intro s n hs
    exact seek_recovery_sticky s n hs
  · intro s hs hok hty0 hty1
    exact read_header_second_anomaly_type s hs hok hty0 hty1
  · intro s hs hok hcons hnp hlen hmm
    exact read_header_second_anomaly_backptr s hs hok hcons hnp hlen hmm

theorem claim2_recovery_sticky_witness :
    (Status.protocolTryRecovery = Status.protocolTryRecovery ∧
      tifRecWitness1.recovery = .protocolTryRecovery) ∧
    tifRecWitness2.recovery = .protocolTryRecovery ∧
    (match tapeimage.seek tifRecWitness1 0 with
     | .ok s1 => s1.recovery = .protocolTryRecovery
     | .error (_, s1) => s1.recovery = .protocolTryRecovery) ∧
    (match tapeimage.read_header_from_disk tifRecWitness3 with
     | .error (e, _) => e.status = .protocolFailedRecovery
     | .ok _ => False) ∧
    (match tapeimage.read_header_from_disk tifRecWitness4 with
     | .error (e, _) => e.status = .protocolFailedRecovery
     | .ok _ => False) :=
  ⟨claim2_recovery_sticky.1 tifRecWitness1 5 [] .protocolTryRecovery tifRecWitness1
      rfl (by rfl),
   claim2_recovery_sticky.2.1 tifRecWitness2 5
      ⟨.protocolFailedRecovery,
       "tapeimage: incomplete read of tapeimage header, recovery not implemented"⟩
      tifRecWitness2 rfl (by rfl),
   claim2_recovery_sticky.2.2.1 tifRecWitness1 0 rfl,
   claim2_recovery_sticky.2.2.2.1 tifRecWitness3 rfl (by rfl) (by decide) (by decide),
   claim2_recovery_sticky.2.2.2.2 tifRecWitness4 rfl (by rfl) (Or.inl (by decide))
      (by decide) (by decide) (by decide)⟩

theorem claim10_open_failure_safety :
    lfp_tapeimage_open none = (none, none) ∧
    lfp_rp66_open none = (none, none) ∧
    (∀ (m : memfile) (e : Err) (m1 : memfile),
       tapeimage.open m = .error (e, m1) →
       lfp_tapeimage_open (some m) = (none, some m1) ∧ m1.mem = m.mem) ∧
    (∀ (m : memfile) (t : tapeimage),
       tapeimage.open m = .ok t →
       lfp_tapeimage_open (some m) = (some t, none)) ∧
    (∀ m : memfile, lfp_rp66_open (some m) = (some (rp66.open m), none)) := by
  refine ⟨rfl, rfl, ?_, ?_, fun m => rfl⟩
  · intro m e m1 h
    refine ⟨?_, ?_⟩
    · unfold lfp_tapeimage_open
      dsimp only
      rw [h]
    · unfold tapeimage.open at h
      dsimp only at h
      split at h
      case _ e1 s2 heq =>
        injection h with h
        injection h with h1 h2
        obtain ⟨-, hmem, -, -, -, -⟩ := read_header_err_shape _ _ _ heq
        rw [← h2]
        exact hmem
      case _ s1 heq => exact Except.noConfusion h
  · intro m t h
    unfold lfp_tapeimage_open
    dsimp only
    rw [h]

theorem claim10_open_failure_safety_witness :
    (lfp_tapeimage_open (some ⟨[], 0⟩) =
       (none, some (⟨[], 0⟩ : memfile)) ∧ ([] : List Nat) = []) ∧
    lfp_tapeimage_open (some ⟨s1bytes, 0⟩) =
      (some ⟨0, ⟨s1bytes, 12⟩, [⟨0, 0, 20⟩], 0, 8, .ok⟩, none) :=
  ⟨claim10_open_failure_safety.2.2.1 ⟨[], 0⟩
     ⟨.protocolFailedRecovery,
      "tapeimage: incomplete read of tapeimage header, recovery not implemented"⟩
     ⟨[], 0⟩ (by rfl),
   claim10_open_failure_safety.2.2.2.1 ⟨s1bytes, 0⟩
     ⟨0, ⟨s1bytes, 12⟩, [⟨0, 0, 20⟩], 0, 8, .ok⟩ (by rfl)⟩

theorem memfile_seek_err_status (f : memfile) (n : Int) (e : Err) (f1 : memfile)
    (h : memfile.seek f n = .error (e, f1)) : e.status = .invalidArgs := by
  unfold memfile.seek at h
  split_ifs at h <;>
    (injection h with h; injection h with h1 h2; rw [← h1])

theorem rp66_read_header_err_status (s : rp66) (e : Err) (s1 : rp66)
    (h : rp66.read_header_from_disk s = .error (e, s1)) :
    e.status = .protocolFatal ∨ e.status = .ioError ∨ e.status = .unexpectedEof ∨
      e.status = .notImplemented := by
  unfold rp66.read_header_from_disk memfile.readinto at h
  dsimp only at h
  split_ifs at h <;>
    first
      | exact Except.noConfusion h
      | (injection h with h; injection h with h1 h2; rw [← h1]; simp)

theorem rp66_readOne_err_status (fuel : Nat) :
    ∀ (len : Int) (s : rp66) (e : Err) (s1 : rp66),
      rp66.readOne len fuel s = .error (e, s1) →
      e.status ≠ .protocolTryRecovery ∧ e.status ≠ .protocolFailedRecovery := by
  induction fuel with
  | zero =>
    intro len s e s1 h
    injection h with h; injection h with h1 h2; rw [← h1]
    exact ⟨by decide, by decide⟩
  | succ fuel ih =>
    intro len s e s1 h
    unfold rp66.readOne at h
    dsimp only at h
    split_ifs at h with h1 h2 h3 h4
    · rcases hh : rp66.read_header_from_disk s with ⟨e1, t1⟩ | t1 <;> rw [hh] at h
      · dsimp only at h
        injection h with h
        injection h with hE hS
        have := rp66_read_header_err_status s e1 t1 hh
        rw [hE] at this
        rcases this with h5 | h5 | h5 | h5 <;> rw [h5] <;> exact ⟨by decide, by decide⟩
      · dsimp only at h
        split_ifs at h with h5
        · exact ih len t1.moveLast e s1 h
        · exact ih len t1 e s1 h
    · rcases hk : memfile.seek s.fp ((s.idx.getD (s.curPos + 1) dummyVr).offset + 4)
          with ⟨e1, fp1⟩ | fp1 <;> rw [hk] at h
      · dsimp only at h
        injection h with h
        injection h with hE hS
        have := memfile_seek_err_status _ _ _ _ hk
        rw [hE] at this
        rw [this]
        exact ⟨by decide, by decide⟩
      · dsimp only at h
        exact ih len _ e s1 h
    · injection h with h; injection h with h1 h2; rw [← h1]
      exact ⟨by decide, by decide⟩

theorem rp66_readLoop_statuses (fuel : Nat) :
    ∀ (acc : List Nat) (toRead : Int) (s : rp66),
      (match rp66.readLoop acc toRead fuel s with
       | .ok (_, st, _) => st = .ok ∨ st = .eof ∨ st = .okincomplete
       | .error (e, _) => e.status ≠ .protocolTryRecovery ∧
           e.status ≠ .protocolFailedRecovery) := by
  induction fuel with
  | zero => intro acc toRead s; exact ⟨by decide, by decide⟩
  | succ fuel ih =>
    intro acc toRead s
    unfold rp66.readLoop
    dsimp only
    rcases ho : rp66.readOne toRead (s.fp.mem.length + s.idx.length + 2) s
        with ⟨e1, t1⟩ | ⟨bytes, t1⟩
    · exact rp66_readOne_err_status _ _ _ _ _ ho
    · dsimp only
      split_ifs with h1 h2 h3 h4
      · exact Or.inl rfl
      · exact Or.inr (Or.inl rfl)
      · exact ⟨by decide, by decide⟩
      · exact Or.inr (Or.inr rfl)
      · exact ih _ _ _

theorem rp66_seekLoop_err_status (fuel : Nat) :
    ∀ (n : Int) (s : rp66) (e : Err) (s1 : rp66),
      rp66.seekLoop n fuel s = .error (e, s1) →
      e.status ≠ .protocolTryRecovery ∧ e.status ≠ .protocolFailedRecovery := by
  induction fuel with
  | zero =>
    intro n s e s1 h
    injection h with h; injection h with h1 h2; rw [← h1]
    exact ⟨by decide, by decide⟩
  | succ fuel ih =>
    intro n s e s1 h
    unfold rp66.seekLoop at h
    dsimp only at h
    split_ifs at h with h1 h2
    · rcases hk : memfile.seek s.fp
          (rpPhysical s.zero n ((s.idx.length : Int) - 2)) with ⟨e1, fp1⟩ | fp1 <;>
        rw [hk] at h
      · dsimp only at h
        injection h with h
        injection h with hE hS
        have := memfile_seek_err_status _ _ _ _ hk
        rw [hE] at this; rw [this]
        exact ⟨by decide, by decide⟩
      · dsimp only at h
        split_ifs at h <;>
          first
            | exact Except.noConfusion h
            | (injection h with h; injection h with h1 h2; rw [← h1];
               exact ⟨by decide, by decide⟩)
    · rcases hk : memfile.seek s.fp
          ((s.idx.getD (s.idx.length - 1) dummyVr).offset +
            ((s.idx.getD (s.idx.length - 1) dummyVr).length : Int)) with ⟨e1, fp1⟩ | fp1 <;>
        rw [hk] at h
      · dsimp only at h
        injection h with h
        injection h with hE hS
        have := memfile_seek_err_status _ _ _ _ hk
        rw [hE] at this; rw [this]
        exact ⟨by decide, by decide⟩
      · exact Except.noConfusion h
    · rcases hk : memfile.seek s.fp
          ((s.idx.getD (s.idx.length - 1) dummyVr).offset +
            ((s.idx.getD (s.idx.length - 1) dummyVr).length : Int)) with ⟨e1, fp1⟩ | fp1 <;>
        rw [hk] at h
      · dsimp only at h
        injection h with h
        injection h with hE hS
        have := memfile_seek_err_status _ _ _ _ hk
        rw [hE] at this; rw [this]
        exact ⟨by decide, by decide⟩
      · dsimp only at h
        rcases hh : rp66.read_header_from_disk
            { s with fp := fp1, curRemaining := 0 } with ⟨e1, t1⟩ | t1 <;> rw [hh] at h
        · dsimp only at h
          injection h with h
          injection h with hE hS
          have := rp66_read_header_err_status _ _ _ hh
          rw [hE] at this
          rcases this with h5 | h5 | h5 | h5 <;> rw [h5] <;> exact ⟨by decide, by decide⟩
        · dsimp only at h
          split_ifs at h <;>
            first
              | exact Except.noConfusion h
              | (injection h with h; injection h with h1 h2; rw [← h1];
                 exact ⟨by decide, by decide⟩)
              | exact ih n _ e s1 h

theorem rp66_find_err_status (s : rp66) (n : Int) (hint : Nat) (e : Err)
    (h : rp66.find s n hint = .error e) : e.status = .logicError := by
  unfold rp66.find at h
  dsimp only at h
  split_ifs at h with h1
  split at h
  · exact Except.noConfusion h
  · injection h with h
    rw [← h]

theorem rp66_seek_err_status (s : rp66) (n : Int) (e : Err) (s1 : rp66)
    (h : rp66.seek s n = .error (e, s1)) :
    e.status ≠ .protocolTryRecovery ∧ e.status ≠ .protocolFailedRecovery := by
  unfold rp66.seek at h
  dsimp only at h
  split_ifs at h with h1
  · rcases hf : rp66.find s n s.curPos with e1 | fnd <;> rw [hf] at h
    · dsimp only at h
      injection h with h
      injection h with hE hS
      have := rp66_find_err_status _ _ _ _ hf
      rw [hE] at this; rw [this]
      exact ⟨by decide, by decide⟩
    · dsimp only at h
      rcases hk : memfile.seek s.fp (rpPhysical s.zero n ((fnd : Int) - 1))
          with ⟨e1, fp1⟩ | fp1 <;> rw [hk] at h
      · dsimp only at h
        injection h with h
        injection h with hE hS
        have := memfile_seek_err_status _ _ _ _ hk
        rw [hE] at this; rw [this]
        exact ⟨by decide, by decide⟩
      · dsimp only at h
        split_ifs at h <;>
          first
            | exact Except.noConfusion h
            | (injection h with h; injection h with h1 h2; rw [← h1];
               exact ⟨by decide, by decide⟩)
  · exact rp66_seekLoop_err_status _ n s.moveLast e s1 h

theorem claim6_rp66_strict_format_no_recovery :
    (∀ (s : rp66), (s.fp.readinto 4).2.1 = .ok →
       ((s.fp.readinto 4).1.getD 2 0 ≠ 255 ∨ (s.fp.readinto 4).1.getD 3 0 ≠ 1) →
       (match rp66.read_header_from_disk s with
        | .error (e, _) => e.status = .protocolFatal
        | .ok _ => False)) ∧
    (∀ (s : rp66) (len : Int),
       (match rp66.readinto s len with
        | .ok (_, st, _) => st = .ok ∨ st = .eof ∨ st = .okincomplete
        | .error (e, _) => e.status ≠ .protocolTryRecovery ∧
            e.status ≠ .protocolFailedRecovery)) ∧
    (∀ (s : rp66) (n : Int),
       (match rp66.seek s n with
        | .ok _ => True
        | .error (e, _) => e.status ≠ .protocolTryRecovery ∧
            e.status ≠ .protocolFailedRecovery)) := by
  refine ⟨?_, ?_, ?_⟩
  · intro s hok hbad
    unfold rp66.read_header_from_disk
    dsimp only
    rw [hok]
    dsimp only
    have hcond : (((s.fp.readinto 4).1.getD 2 0 != 255) ||
        ((s.fp.readinto 4).1.getD 3 0 != 1)) = true := by
      rcases hbad with hb | hb
      · rw [Bool.or_eq_true]; exact Or.inl (bne_iff_ne.mpr hb)
      · rw [Bool.or_eq_true]; exact Or.inr (bne_iff_ne.mpr hb)
    rw [if_pos hcond]
  · intro s len
    exact rp66_readLoop_statuses _ _ _ _
  · intro s n
    rcases hs : rp66.seek s n with ⟨e, s1⟩ | s1
    · exact rp66_seek_err_status s n e s1 hs
    · trivial

theorem claim6_rp66_strict_format_no_recovery_witness :
    (match rp66.read_header_from_disk (rp66.open rp66BadFmtFile) with
     | .error (e, _) => e.status = .protocolFatal
     | .ok _ => False) ∧
    (match rp66.readinto (rp66.open rp66SmallFile) 3 with
     | .ok (_, st, _) => st = .ok ∨ st = .eof ∨ st = .okincomplete
     | .error (e, _) => e.status ≠ .protocolTryRecovery ∧
         e.status ≠ .protocolFailedRecovery) ∧
    (match rp66.seek (rp66.open rp66SmallFile) 1 with
     | .ok _ => True
     | .error (e, _) => e.status ≠ .protocolTryRecovery ∧
         e.status ≠ .protocolFailedRecovery) :=
  ⟨claim6_rp66_strict_format_no_recovery.1 (rp66.open rp66BadFmtFile) (by rfl)
     (Or.inl (by decide)),
   claim6_rp66_strict_format_no_recovery.2.1 (rp66.open rp66SmallFile) 3,
   claim6_rp66_strict_format_no_recovery.2.2 (rp66.open rp66SmallFile) 1⟩

theorem claim5_tif_open_first_header_witness :
    (⟨0, ⟨s1bytes, 12⟩, [⟨0, 0, 20⟩], 0, 8, .ok⟩ : tapeimage).zero =
      (((⟨s1bytes, 0⟩ : memfile).pos : Nat) : Int) ∧
    (⟨0, ⟨s1bytes, 12⟩, [⟨0, 0, 20⟩], 0, 8, .ok⟩ : tapeimage).fp.mem =
      (⟨s1bytes, 0⟩ : memfile).mem ∧
    (⟨0, ⟨s1bytes, 12⟩, [⟨0, 0, 20⟩], 0, 8, .ok⟩ : tapeimage).fp.pos =
      (⟨s1bytes, 0⟩ : memfile).pos + 12 ∧
    (⟨0, ⟨s1bytes, 12⟩, [⟨0, 0, 20⟩], 0, 8, .ok⟩ : tapeimage).index.length = 1 ∧
    (⟨0, ⟨s1bytes, 12⟩, [⟨0, 0, 20⟩], 0, 8, .ok⟩ : tapeimage).curPos = 0 ∧
    (⟨0, ⟨s1bytes, 12⟩, [⟨0, 0, 20⟩], 0, 8, .ok⟩ : tapeimage).curRemaining =
      ((((⟨0, ⟨s1bytes, 12⟩, [⟨0, 0, 20⟩], 0, 8, .ok⟩ : tapeimage).index.getD 0
          dummyHeader).next : Nat) : Int) -
        ((((⟨s1bytes, 0⟩ : memfile).pos : Nat) : Int) + 12) :=
  claim5_tif_open_first_header ⟨s1bytes, 0⟩ ⟨0, ⟨s1bytes, 12⟩, [⟨0, 0, 20⟩], 0, 8, .ok⟩
    (by rfl)

theorem le32_leBytes4 (v : Nat) (hv : v < 4294967296) :
    le32 (v % 256) (v / 256 % 256) (v / 65536 % 256) (v / 16777216 % 256) = v := by
  unfold le32
  omega

theorem memfile_read_exact (f : memfile) (bs tail : List Nat) (n : Nat)
    (hdrop : f.mem.drop f.pos = bs ++ tail) (hn : n = bs.length) :
    memfile.readinto f n = (bs, .ok, { f with pos := f.pos + n }) := by
  unfold memfile.readinto
  dsimp only
  have hrem : f.mem.length - f.pos = n + tail.length := by
    have := congrArg List.length hdrop
    simpa [hn] using this
  rw [hrem]
  have hmin : min n (n + tail.length) = n := by omega
  rw [hmin, hdrop, hn, List.take_left]
  have hlt : ¬ (bs.length < bs.length) := lt_irrefl _
  rw [if_neg hlt]

theorem tifHeaderBytes_parse (t p nx : Nat)
    (ht : t < 4294967296) (hp : p < 4294967296) (hnx : nx < 4294967296) :
    le32 ((tifHeaderBytes t p nx).getD 0 0) ((tifHeaderBytes t p nx).getD 1 0)
      ((tifHeaderBytes t p nx).getD 2 0) ((tifHeaderBytes t p nx).getD 3 0) = t ∧
    le32 ((tifHeaderBytes t p nx).getD 4 0) ((tifHeaderBytes t p nx).getD 5 0)
      ((tifHeaderBytes t p nx).getD 6 0) ((tifHeaderBytes t p nx).getD 7 0) = p ∧
    le32 ((tifHeaderBytes t p nx).getD 8 0) ((tifHeaderBytes t p nx).getD 9 0)
      ((tifHeaderBytes t p nx).getD 10 0) ((tifHeaderBytes t p nx).getD 11 0) = nx := by
  unfold tifHeaderBytes leBytes4
  refine ⟨?_, ?_, ?_⟩ <;>
    · dsimp only [List.cons_append, List.nil_append, List.getD_cons_zero, List.getD_cons_succ]
      exact le32_leBytes4 _ (by assumption)

theorem validateHeader_clean (s : tapeimage) (ty pv nx : Nat)
    (hty : ty = 0 ∨ ty = 1) (hlt : pv < nx)
    (hrec : s.recovery = .ok)
    (hback : 2 ≤ s.index.length → (s.index.getD (s.index.length - 2) dummyHeader).next = pv) :
    tapeimage.validateHeader s ty pv nx = .ok (s.append ⟨ty, pv, nx⟩) := by
  unfold tapeimage.validateHeader
  dsimp only
  have hcons : (ty == 0 || ty == 1) = true := by
    rcases hty with h | h <;> subst h
    · exact Bool.true_or _
    · exact Bool.or_true _
  rw [hcons]
  rw [if_neg (by simp : ¬((!true && s.recovery != Status.ok) = true))]
  rw [if_pos rfl, if_pos rfl]
  rw [if_neg (not_le.mpr hlt)]
  by_cases hlen : 2 ≤ s.index.length
  · rw [if_pos hlen]
    have hb : (pv != (s.index.getD (s.index.length - 2) dummyHeader).next) = false := by
      rw [bne_eq_false_iff_eq]
      exact (hback hlen).symm
    rw [hb]
    rw [if_neg (by simp : ¬((false : Bool) = true))]
  · rw [if_neg hlen]
    rw [hrec]
    rw [if_neg (by simp : ¬((Status.ok != Status.ok && !s.index.isEmpty) = true))]

theorem read_header_clean (s : tapeimage) (t p nx : Nat) (tail : List Nat)
    (hdrop : s.fp.mem.drop s.fp.pos = tifHeaderBytes t p nx ++ tail)
    (ht : t = 0 ∨ t = 1) (hlt : p < nx)
    (hp : p < 4294967296) (hnx : nx < 4294967296)
    (hrec : s.recovery = .ok)
    (hback : 2 ≤ s.index.length → (s.index.getD (s.index.length - 2) dummyHeader).next = p) :
    tapeimage.read_header_from_disk s =
      .ok (tapeimage.append
        { s with fp := { mem := s.fp.mem, pos := s.fp.pos + 12 } } ⟨t, p, nx⟩) := by
  have ht32 : t < 4294967296 := by rcases ht with h | h <;> omega
  have hread := memfile_read_exact s.fp (tifHeaderBytes t p nx) tail 12 hdrop (by rfl)
  unfold tapeimage.read_header_from_disk
  dsimp only
  rw [hread]
  dsimp only
  obtain ⟨h0, h1, h2⟩ := tifHeaderBytes_parse t p nx ht32 hp hnx
  rw [h0, h1, h2]
  have := validateHeader_clean { s with fp := { mem := s.fp.mem, pos := s.fp.pos + 12 } }
    t p nx ht hlt hrec hback
  exact this

theorem moveLast_append (s : tapeimage) (h : header) (hne : s.index ≠ []) :
    (s.append h).moveLast =
      { s with index := s.index ++ [h], curPos := s.index.length,
               curRemaining := (h.next : Int) -
                 (((s.index.getD (s.index.length - 1) dummyHeader).next : Int) + 12) } := by
  unfold tapeimage.moveLast tapeimage.append
  dsimp only
  have hlen : (s.index ++ [h]).length = s.index.length + 1 := by simp
  rw [hlen]
  have h1 : s.index.length + 1 - 1 = s.index.length := by omega
  rw [h1]
  have hgd1 : (s.index ++ [h]).getD s.index.length dummyHeader = h := by
    rw [List.getD_eq_getElem?_getD, List.getElem?_append_right (le_refl _)]
    simp
  have hlt : s.index.length - 1 < s.index.length := by
    have : s.index.length ≠ 0 := by
      intro hc
      exact hne (List.length_eq_zero.mp hc)
    omega
  have hgd2 : (s.index ++ [h]).getD (s.index.length + 1 - 2) dummyHeader =
      s.index.getD (s.index.length - 1) dummyHeader := by
    have h2 : s.index.length + 1 - 2 = s.index.length - 1 := by omega
    rw [h2, List.getD_eq_getElem?_getD, List.getElem?_append_left hlt,
      List.getD_eq_getElem?_getD]
  rw [hgd1, hgd2]

theorem sumLen_cons (p : List Nat) (r : List (List Nat)) :
    sumLen (p :: r) = p.length + sumLen r := by
  simp [sumLen]

theorem encodeTifFrom_length (rest : List (List Nat)) :
    ∀ off prev, (encodeTifFrom rest off prev).length =
      12 * rest.length + 12 + sumLen rest := by
  induction rest with
  | nil =>
    intro off prev
    simp [encodeTifFrom, tifHeaderBytes, leBytes4, sumLen]
  | cons p r ih =>
    intro off prev
    simp only [encodeTifFrom, List.length_append, ih, tifHeaderBytes, leBytes4,
      sumLen_cons, List.length_cons, List.length_append]
    simp [List.length_append]
    ring

theorem getD_append_length (l : List header) (h : header) :
    (l ++ [h]).getD l.length dummyHeader = h := by
  rw [List.getD_eq_getElem?_getD, List.getElem?_append_right (le_refl _)]
  simp

theorem getD_append_lt (l : List header) (h : header) (i : Nat) (hi : i < l.length) :
    (l ++ [h]).getD i dummyHeader = l.getD i dummyHeader := by
  rw [List.getD_eq_getElem?_getD, List.getElem?_append_left hi, List.getD_eq_getElem?_getD]

theorem tifLoop_drains (rest : List (List Nat)) :
    ∀ (s : tapeimage) (off prev : Nat) (len : Int) (acc : List Nat) (fuel : Nat),
      tifAligned s rest off prev →
      (sumLen rest : Int) < len →
      2 * rest.length + 2 ≤ fuel →
      ∃ sF, tapeimage.readLoop len acc fuel s = .ok (acc ++ rest.join, sF) ∧
        sF.recovery = .ok ∧ sF.eof = true := by
  induction rest with
  | nil =>
    intro s off prev len acc fuel hA hlen hfuel
    obtain ⟨hz, hrec, hpos, hdrop, hmemlt, hne, hcp, hcr, hlast, htype, hback, hprev⟩ := hA
    obtain ⟨f, rfl⟩ : ∃ f, fuel = f + 1 := ⟨fuel - 1, by omega⟩
    obtain ⟨f1, rfl⟩ : ∃ f1, f = f1 + 1 := ⟨f - 1, by omega⟩
    -- sizes
    have hdlen := congrArg List.length hdrop
    rw [List.length_drop, encodeTifFrom_length] at hdlen
    simp only [List.length_nil, sumLen, List.map_nil, List.sum_nil] at hdlen
    have hoff : s.fp.mem.length = off + 12 := by omega
    -- the marker header about to be read
    have hdrop12 : s.fp.mem.drop s.fp.pos = tifHeaderBytes 1 prev (off + 12) ++ [] := by
      rw [hpos, hdrop]
      simp [encodeTifFrom]
    have hrh := read_header_clean s 1 prev (off + 12) [] hdrop12 (Or.inr rfl)
      (by omega) (by omega) (by omega) hrec
      (by intro h2; rw [hback h2])
    -- first iteration: parse the marker
    simp only [tapeimage.readLoop]
    have heof : s.eof = false := by
      unfold tapeimage.eof tapeimage.cur
      rw [hcp, htype]
      rfl
    rw [heof]
    rw [if_neg (by decide : ¬(false = true))]
    rw [hcr]
    rw [if_pos (by decide : ((0 : Int) == 0) = true)]
    rw [hcp]
    rw [if_pos (by simp : (s.index.length - 1 == s.index.length - 1) = true)]
    rw [hrh]
    dsimp only
    rw [moveLast_append { s with fp := { mem := s.fp.mem, pos := s.fp.pos + 12 } }
      ⟨1, prev, off + 12⟩ hne]
    -- second iteration: the file mark is the current record, eof fires
    simp only [tapeimage.readLoop]
    have heof2 : tapeimage.eof
        { s with fp := { mem := s.fp.mem, pos := s.fp.pos + 12 },
                 index := s.index ++ [⟨1, prev, off + 12⟩], curPos := s.index.length,
                 curRemaining := ((off + 12 : Nat) : Int) -
                   (((s.index.getD (s.index.length - 1) dummyHeader).next : Int) + 12) } =
        true := by
      unfold tapeimage.eof tapeimage.cur
      dsimp only
      rw [getD_append_length]
      rfl
    rw [heof2]
    rw [if_pos rfl]
    refine ⟨{ s with fp := { mem := s.fp.mem, pos := s.fp.pos + 12 },
                     index := s.index ++ [⟨1, prev, off + 12⟩], curPos := s.index.length,
                     curRemaining := ((off + 12 : Nat) : Int) -
                       (((s.index.getD (s.index.length - 1) dummyHeader).next : Int) + 12) },
            ?_, hrec, heof2⟩
    simp
  | cons p r ih =>
    intro s off prev len acc fuel hA hlen hfuel
    obtain ⟨hz, hrec, hpos, hdrop, hmemlt, hne, hcp, hcr, hlast, htype, hback, hprev⟩ := hA
    obtain ⟨f, rfl⟩ : ∃ f, fuel = f + 1 := ⟨fuel - 1, by omega⟩
    obtain ⟨f1, rfl⟩ : ∃ f1, f = f1 + 1 := ⟨f - 1, by omega⟩
    have hdlen := congrArg List.length hdrop
    rw [List.length_drop, encodeTifFrom_length, sumLen_cons] at hdlen
    have hoffb : off + 12 + p.length + 12 ≤ s.fp.mem.length := by
      simp only [List.length_cons] at hdlen
      omega
    have hnx32 : off + 12 + p.length < 4294967296 := by omega
    have hdropHdr : s.fp.mem.drop s.fp.pos =
        tifHeaderBytes 0 prev (off + 12 + p.length) ++
          (p ++ encodeTifFrom r (off + 12 + p.length) off) := by
      rw [hpos, hdrop]
      simp [encodeTifFrom]
    have hrh := read_header_clean s 0 prev (off + 12 + p.length) _ hdropHdr (Or.inl rfl)
      (by omega) (by omega) (by omega) hrec (fun h2 => hback h2)
    -- iteration 1: parse the record header
    simp only [tapeimage.readLoop]
    have heof : s.eof = false := by
      unfold tapeimage.eof tapeimage.cur
      rw [hcp, htype]
      rfl
    rw [heof, if_neg (by decide : ¬(false = true))]
    rw [hcr, if_pos (by decide : ((0 : Int) == 0) = true)]
    rw [hcp, if_pos (by simp : (s.index.length - 1 == s.index.length - 1) = true)]
    rw [hrh]
    dsimp only
    rw [moveLast_append { s with fp := { mem := s.fp.mem, pos := s.fp.pos + 12 } }
      ⟨0, prev, off + 12 + p.length⟩ hne]
    rw [hlast]
    have hcr2 : ((off + 12 + p.length : Nat) : Int) - ((off : Nat) + 12 : Int) =
        (p.length : Int) := by
      push_cast
      ring
    rw [hcr2]
    -- the drop of the inner stream after the header
    have hdropP : s.fp.mem.drop (s.fp.pos + 12) =
        p ++ encodeTifFrom r (off + 12 + p.length) off := by
      have h1 : s.fp.mem.drop (s.fp.pos + 12) = (s.fp.mem.drop s.fp.pos).drop 12 := by
        rw [List.drop_drop]
        all_goals congr 1
        all_goals omega
      rw [h1, hdropHdr, List.drop_left' (by simp [tifHeaderBytes, leBytes4])]
    -- alignment facts shared by both sub-cases
    have hlen' : (sumLen r : Int) < len - (p.length : Int) := by
      rw [sumLen_cons] at hlen
      push_cast at hlen ⊢
      omega
    rcases Decidable.em (p = []) with hpnil | hpne
    · -- empty record: the next loop iteration parses the next header
      subst hpnil
      have hIH := ih { s with fp := { mem := s.fp.mem, pos := s.fp.pos + 12 },
                              index := s.index ++ [⟨0, prev, off + 12⟩],
                              curPos := s.index.length,
                              curRemaining := (0 : Int) }
        (off + 12) off len acc (f1 + 1) ?_ (by
          rw [sumLen_cons] at hlen
          simpa using hlen) (by
          simp only [List.length_cons] at hfuel
          omega)
      · simp only [tapeimage.readLoop] at hIH
        simpa using hIH
      · refine ⟨hz, hrec, by rw [hpos], ?_, hmemlt, by simp, by simp, rfl, ?_, ?_, ?_, by omega⟩
        · dsimp only
          rw [hpos] at hdropP
          simpa using hdropP
        · dsimp only
          simp only [List.length_append, List.length_cons, List.length_nil, Nat.add_sub_cancel]
          rw [getD_append_length]
        · dsimp only
          simp only [List.length_append, List.length_cons, List.length_nil, Nat.add_sub_cancel]
          rw [getD_append_length]
        · intro h2
          dsimp only
          rw [List.length_append]
          simp only [List.length_cons, List.length_nil]
          have h3 : s.index.length + 1 - 2 = s.index.length - 1 := by omega
          rw [h3, getD_append_lt _ _ _ (by
            have hne' : s.index.length ≠ 0 := fun hc => hne (List.length_eq_zero.mp hc)
            omega)]
          exact hlast
    · -- nonempty record: read its payload, then recurse on the tail
      have hplen : 0 < p.length := List.length_pos.mpr hpne
      -- iteration 2: deliver the payload
      simp only [tapeimage.readLoop]
      have heof2 : tapeimage.eof
          { s with fp := { mem := s.fp.mem, pos := s.fp.pos + 12 },
                   index := s.index ++ [⟨0, prev, off + 12 + p.length⟩],
                   curPos := s.index.length,
                   curRemaining := (p.length : Int) } = false := by
        unfold tapeimage.eof tapeimage.cur
        dsimp only
        rw [getD_append_length]
        rfl
      rw [heof2, if_neg (by decide : ¬(false = true))]
      rw [if_neg (by
        simp only [beq_iff_eq]
        intro hc
        have := Int.natCast_eq_zero.mp hc
        omega : ¬(((p.length : Nat) : Int) == 0) = true)]
      have hmin : min len (p.length : Int) = (p.length : Int) := by omega
      rw [hmin]
      have htoNat : ((p.length : Int)).toNat = p.length := Int.toNat_natCast _
      rw [htoNat]
      have hread := memfile_read_exact
        { mem := s.fp.mem, pos := s.fp.pos + 12 } p
        (encodeTifFrom r (off + 12 + p.length) off) p.length (by simpa using hdropP) rfl
      rw [hread]
      rw [if_neg (by omega : ¬((p.length : Int) - ((p.length : Nat) : Int) < 0))]
      rw [if_neg (by decide : ¬((Status.ok == Status.okincomplete) = true))]
      rw [show ((Status.ok == Status.eof)) = false from rfl, Bool.false_and,
        if_neg (by decide : ¬((false : Bool) = true))]
      rw [if_neg (by decide : ¬((false : Bool) = true))]
      rw [if_neg (by
        simp only [beq_iff_eq]
        intro hc
        rw [sumLen_cons] at hlen
        push_cast at hlen
        omega : ¬(((p.length : Nat) : Int) == len) = true)]
      have hIH := ih { s with fp := { mem := s.fp.mem, pos := s.fp.pos + 12 + p.length },
                              index := s.index ++ [⟨0, prev, off + 12 + p.length⟩],
                              curPos := s.index.length,
                              curRemaining := (p.length : Int) - (p.length : Int) }
        (off + 12 + p.length) off (len - (p.length : Int)) (acc ++ p) f1 ?_ hlen' (by
          simp only [List.length_cons] at hfuel
          omega)
      · obtain ⟨sF, hF, hFr, hFe⟩ := hIH
        refine ⟨sF, ?_, hFr, hFe⟩
        rw [hF]
        simp
      · refine ⟨hz, hrec, by rw [hpos], ?_, hmemlt, by simp, by simp, by simp [sub_self], ?_, ?_, ?_, by omega⟩
        · dsimp only
          have hd3 : s.fp.mem.drop (s.fp.pos + 12 + p.length) =
              encodeTifFrom r (off + 12 + p.length) off := by
            have h1 : s.fp.mem.drop (s.fp.pos + 12 + p.length) =
                (s.fp.mem.drop (s.fp.pos + 12)).drop p.length := by
              rw [List.drop_drop]
              all_goals congr 1
              all_goals omega
            rw [h1, hdropP, List.drop_left]
          rw [hpos] at hd3
          exact hd3
        · dsimp only
          simp only [List.length_append, List.length_cons, List.length_nil, Nat.add_sub_cancel]
          rw [getD_append_length]
        · dsimp only
          simp only [List.length_append, List.length_cons, List.length_nil, Nat.add_sub_cancel]
          rw [getD_append_length]
        · intro h2
          dsimp only
          rw [List.length_append]
          simp only [List.length_cons, List.length_nil]
          have h3 : s.index.length + 1 - 2 = s.index.length - 1 := by omega
          rw [h3, getD_append_lt _ _ _ (by
            have hne' : s.index.length ≠ 0 := fun hc => hne (List.length_eq_zero.mp hc)
            omega)]
          exact hlast

theorem tifReadLoop_eof (len : Int) (acc : List Nat) (fuel : Nat) (s : tapeimage)
    (hfuel : 0 < fuel) (heof : s.eof = true) :
    tapeimage.readLoop len acc fuel s = .ok (acc, s) := by
  cases fuel with
  | zero => omega
  | succ f => simp [tapeimage.readLoop, heof]

theorem join_length_sumLen (ps : List (List Nat)) : ps.join.length = sumLen ps := by
  simp [sumLen, List.length_join]

theorem tif_readinto_status (s : tapeimage) (len : Int) (out : List Nat) (s1 : tapeimage)
    (hloop : tapeimage.readLoop len [] (s.fuelFor len) s = .ok (out, s1))
    (hrec : s1.recovery = .ok) (hne : ((out.length : Nat) : Int) ≠ len)
    (heof : s1.eof = true) :
    tapeimage.readinto s len = .ok (out, Status.eof, s1) := by
  unfold tapeimage.readinto
  rw [hloop]
  dsimp only
  rw [hrec]
  rw [if_neg (by decide : ¬((Status.ok != Status.ok) = true))]
  rw [if_neg (fun hc => hne (by simpa using (beq_iff_eq.mp hc)))]
  rw [if_pos heof]

theorem tifLoop_delivers (p : List Nat) (rest : List (List Nat)) :
    ∀ (s : tapeimage) (off : Nat) (len : Int) (acc : List Nat) (fuel : Nat),
      s.zero = 0 → s.recovery = .ok →
      s.fp.pos = off + 12 →
      s.fp.mem.drop (off + 12) = p ++ encodeTifFrom rest (off + 12 + p.length) off →
      s.fp.mem.length < 4294967296 →
      s.index ≠ [] →
      s.curPos = s.index.length - 1 →
      s.curRemaining = (p.length : Int) →
      (s.index.getD (s.index.length - 1) dummyHeader).next = off + 12 + p.length →
      (s.index.getD (s.index.length - 1) dummyHeader).type = 0 →
      (2 ≤ s.index.length → (s.index.getD (s.index.length - 2) dummyHeader).next = off) →
      0 < p.length →
      ((p.length + sumLen rest : Nat) : Int) < len →
      2 * rest.length + 3 ≤ fuel →
      ∃ sF, tapeimage.readLoop len acc fuel s = .ok (acc ++ (p ++ rest.join), sF) ∧
        sF.recovery = .ok ∧ sF.eof = true := by
  intro s off len acc fuel hz hrec hpos hdrop hmemlt hne hcp hcr hlast htype hback hplen hlen hfuel
  obtain ⟨f1, rfl⟩ : ∃ f1, fuel = f1 + 1 := ⟨fuel - 1, by omega⟩
  simp only [tapeimage.readLoop]
  have heof : s.eof = false := by
    unfold tapeimage.eof tapeimage.cur
    rw [hcp, htype]
    rfl
  rw [heof, if_neg (by decide : ¬(false = true))]
  rw [hcr]
  rw [if_neg (by
    simp only [beq_iff_eq]
    intro hc
    have := Int.natCast_eq_zero.mp hc
    omega : ¬(((p.length : Nat) : Int) == 0) = true)]
  have hmin : min len (p.length : Int) = (p.length : Int) := by
    push_cast at hlen
    omega
  rw [hmin]
  have htoNat : ((p.length : Int)).toNat = p.length := Int.toNat_natCast _
  rw [htoNat]
  have hread := memfile_read_exact s.fp p
    (encodeTifFrom rest (off + 12 + p.length) off) p.length (by rw [hpos]; exact hdrop) rfl
  rw [hread]
  rw [if_neg (by omega : ¬((p.length : Int) - ((p.length : Nat) : Int) < 0))]
  rw [if_neg (by decide : ¬((Status.ok == Status.okincomplete) = true))]
  rw [show ((Status.ok == Status.eof)) = false from rfl, Bool.false_and,
    if_neg (by decide : ¬((false : Bool) = true))]
  rw [if_neg (by decide : ¬((false : Bool) = true))]
  rw [if_neg (by
    simp only [beq_iff_eq]
    intro hc
    push_cast at hlen
    omega : ¬(((p.length : Nat) : Int) == len) = true)]
  have hIH := tifLoop_drains rest
    { s with fp := { mem := s.fp.mem, pos := s.fp.pos + p.length },
             curRemaining := (p.length : Int) - (p.length : Int) }
    (off + 12 + p.length) off (len - (p.length : Int)) (acc ++ p) f1 ?_ (by
      push_cast at hlen ⊢
      omega) (by omega)
  · obtain ⟨sF, hF, hFr, hFe⟩ := hIH
    refine ⟨sF, ?_, hFr, hFe⟩
    rw [hF]
    simp
  · refine ⟨hz, hrec, by dsimp only; omega, ?_, hmemlt, hne, hcp, by simp, hlast, htype, hback, by omega⟩
    dsimp only
    have h1 : s.fp.mem.drop (off + 12 + p.length) =
        (s.fp.mem.drop (off + 12)).drop p.length := by
      rw [List.drop_drop]
      all_goals congr 1
      all_goals omega
    rw [h1, hdrop, List.drop_left]

theorem tif_roundtrip (ps : List (List Nat)) (len : Int)
    (hmem : (encodeTif ps).length < 4294967296)
    (hlen : (sumLen ps : Int) < len) :
    ∃ s sF, tapeimage.open ⟨encodeTif ps, 0⟩ = .ok s ∧
      tapeimage.readinto s len = .ok (ps.join, Status.eof, sF) := by
  cases ps with
  | nil =>
    have hlen0 : (0 : Int) < len := by simpa [sumLen] using hlen
    have ho : tapeimage.open ⟨encodeTif [], 0⟩ =
        .ok { zero := 0, fp := { mem := encodeTif [], pos := 12 },
              index := [⟨1, 0, 12⟩], curPos := 0, curRemaining := 0,
              recovery := .ok } := rfl
    have hloop := tifReadLoop_eof len []
      (tapeimage.fuelFor { zero := 0, fp := { mem := encodeTif [], pos := 12 },
                           index := [⟨1, 0, 12⟩], curPos := 0, curRemaining := 0,
                           recovery := .ok } len)
      { zero := 0, fp := { mem := encodeTif [], pos := 12 },
        index := [⟨1, 0, 12⟩], curPos := 0, curRemaining := 0, recovery := .ok }
      (by unfold tapeimage.fuelFor; omega) (by decide)
    have hri := tif_readinto_status _ len _ _ hloop rfl (by
      intro hc
      simp at hc
      omega) (by decide)
    exact ⟨_, _, ho, by simpa using hri⟩
  | cons p rest =>
    have hdlen : (encodeTif (p :: rest)).length =
        12 * (rest.length + 1) + 12 + (p.length + sumLen rest) := by
      unfold encodeTif
      rw [encodeTifFrom_length]
      simp [sumLen_cons]
    have hdrop0 : (encodeTif (p :: rest)).drop 0 =
        tifHeaderBytes 0 0 (0 + 12 + p.length) ++
          (p ++ encodeTifFrom rest (0 + 12 + p.length) 0) := by
      rw [List.drop_zero]
      rw [show encodeTif (p :: rest) = tifHeaderBytes 0 0 (0 + 12 + p.length) ++ p ++
        encodeTifFrom rest (0 + 12 + p.length) 0 from rfl]
      rw [List.append_assoc]
    have hrh := read_header_clean
      { zero := ((0 : Nat) : Int), fp := { mem := encodeTif (p :: rest), pos := 0 },
        index := [], curPos := 0, curRemaining := 0, recovery := .ok }
      0 0 (0 + 12 + p.length) (p ++ encodeTifFrom rest (0 + 12 + p.length) 0)
      hdrop0 (Or.inl rfl) (by omega) (by omega) (by omega) rfl (by
        intro h2
        simp at h2)
    have ho : tapeimage.open ⟨encodeTif (p :: rest), 0⟩ =
        .ok { zero := ((0 : Nat) : Int),
              fp := { mem := encodeTif (p :: rest), pos := 0 + 12 },
              index := [] ++ [⟨0, 0, 0 + 12 + p.length⟩],
              curPos := ([] ++ [(⟨0, 0, 0 + 12 + p.length⟩ : header)]).length - 1,
              curRemaining :=
                ((0 + 12 + p.length : Nat) : Int) - (((0 : Nat) : Int) + 12),
              recovery := .ok } := by
      unfold tapeimage.open
      dsimp only
      rw [hrh]
      rfl
    have hdropP : (encodeTif (p :: rest)).drop (0 + 12) =
        p ++ encodeTifFrom rest (0 + 12 + p.length) 0 := by
      have h2 : encodeTif (p :: rest) = tifHeaderBytes 0 0 (0 + 12 + p.length) ++
          (p ++ encodeTifFrom rest (0 + 12 + p.length) 0) := by
        rw [show encodeTif (p :: rest) = tifHeaderBytes 0 0 (0 + 12 + p.length) ++ p ++
          encodeTifFrom rest (0 + 12 + p.length) 0 from rfl, List.append_assoc]
      rw [h2, List.drop_left' (by simp [tifHeaderBytes, leBytes4])]
    rcases Decidable.em (p = []) with hpnil | hpne
    · subst hpnil
      have hD := tifLoop_drains rest
        { zero := ((0 : Nat) : Int),
          fp := { mem := encodeTif ([] :: rest), pos := 0 + 12 },
          index := [] ++ [⟨0, 0, 0 + 12 + List.length ([] : List Nat)⟩],
          curPos := ([] ++ [(⟨0, 0, 0 + 12 + List.length ([] : List Nat)⟩ : header)]).length - 1,
          curRemaining :=
            ((0 + 12 + List.length ([] : List Nat) : Nat) : Int) - (((0 : Nat) : Int) + 12),
          recovery := .ok }
        (0 + 12) 0 len []
        (tapeimage.fuelFor
          { zero := ((0 : Nat) : Int),
            fp := { mem := encodeTif ([] :: rest), pos := 0 + 12 },
            index := [] ++ [⟨0, 0, 0 + 12 + List.length ([] : List Nat)⟩],
            curPos := ([] ++ [(⟨0, 0, 0 + 12 + List.length ([] : List Nat)⟩ : header)]).length - 1,
            curRemaining :=
              ((0 + 12 + List.length ([] : List Nat) : Nat) : Int) - (((0 : Nat) : Int) + 12),
            recovery := .ok } len)
        ⟨rfl, rfl, rfl, by simpa using hdropP, by simpa using hmem, by simp, by simp,
          by simp, by simp, by simp, by simp, by omega⟩
        (by
          rw [sumLen_cons] at hlen
          simpa using hlen)
        (by
          unfold tapeimage.fuelFor
          dsimp only
          omega)
      obtain ⟨sF, hF, hFr, hFe⟩ := hD
      have hri := tif_readinto_status _ len _ _ hF hFr (by
        intro hc
        simp only [List.nil_append, join_length_sumLen] at hc
        rw [sumLen_cons] at hlen
        push_cast at hlen hc
        omega) hFe
      exact ⟨_, sF, ho, by simpa using hri⟩
    · have hplen : 0 < p.length := List.length_pos.mpr hpne
      have hD := tifLoop_delivers p rest
        { zero := ((0 : Nat) : Int),
          fp := { mem := encodeTif (p :: rest), pos := 0 + 12 },
          index := [] ++ [⟨0, 0, 0 + 12 + p.length⟩],
          curPos := ([] ++ [(⟨0, 0, 0 + 12 + p.length⟩ : header)]).length - 1,
          curRemaining := ((0 + 12 + p.length : Nat) : Int) - (((0 : Nat) : Int) + 12),
          recovery := .ok }
        0 len []
        (tapeimage.fuelFor
          { zero := ((0 : Nat) : Int),
            fp := { mem := encodeTif (p :: rest), pos := 0 + 12 },
            index := [] ++ [⟨0, 0, 0 + 12 + p.length⟩],
            curPos := ([] ++ [(⟨0, 0, 0 + 12 + p.length⟩ : header)]).length - 1,
            curRemaining := ((0 + 12 + p.length : Nat) : Int) - (((0 : Nat) : Int) + 12),
            recovery := .ok } len)
        rfl rfl rfl (by simpa using hdropP) (by simpa using hmem) (by simp) (by simp)
        (by
          dsimp only
          push_cast
          ring) (by simp) (by simp) (by
          intro h2
          simp at h2) hplen (by
          rw [sumLen_cons] at hlen
          push_cast at hlen ⊢
          omega) (by
          unfold tapeimage.fuelFor
          dsimp only
          omega)
      obtain ⟨sF, hF, hFr, hFe⟩ := hD
      have hri := tif_readinto_status _ len _ _ hF hFr (by
        intro hc
        simp only [List.nil_append, List.length_append, join_length_sumLen] at hc
        rw [sumLen_cons] at hlen
        push_cast at hlen hc
        omega) hFe
      exact ⟨_, sF, ho, by simpa using hri⟩

theorem getD_snoc_length {α : Type} (l : List α) (a d : α) :
    (l ++ [a]).getD l.length d = a := by
  rw [List.getD_eq_getElem?_getD, List.getElem?_append_right (le_refl _)]
  simp

theorem encodeRp66_length (ps : List (List Nat)) :
    (encodeRp66 ps).length = 4 * ps.length + sumLen ps := by
  induction ps with
  | nil => simp [encodeRp66, sumLen]
  | cons p r ih =>
    simp only [encodeRp66, List.length_append, ih, sumLen_cons, List.length_cons]
    simp
    ring

theorem rp66_read_header_aligned (s : rp66) (p : List Nat) (rest : List (List Nat))
    (off : Nat)
    (hz : s.zero = 0)
    (hpos : s.fp.pos = off)
    (hdrop : s.fp.mem.drop off = encodeRp66 (p :: rest))
    (hbase : (if s.idx.length - 1 == 0 then s.zero
              else (s.idx.getD (s.idx.length - 1) dummyVr).offset +
                   ((s.idx.getD (s.idx.length - 1) dummyVr).length : Int)) = (off : Int))
    (hsz : p.length + 4 ≤ 65535) :
    rp66.read_header_from_disk s = .ok
      { s with fp := { mem := s.fp.mem, pos := off + 4 },
               idx := s.idx ++
                 [{ length := p.length + 4, format := 255, major := 1,
                    offset := (off : Int) }] } := by
  have hdropHdr : s.fp.mem.drop s.fp.pos =
      [(p.length + 4) / 256 % 256, (p.length + 4) % 256, 255, 1] ++
        (p ++ encodeRp66 rest) := by
    rw [hpos, hdrop]
    simp [encodeRp66]
  have hread := memfile_read_exact s.fp
    [(p.length + 4) / 256 % 256, (p.length + 4) % 256, 255, 1]
    (p ++ encodeRp66 rest) 4 hdropHdr rfl
  unfold rp66.read_header_from_disk
  dsimp only
  rw [hread]
  dsimp only
  rw [show [(p.length + 4) / 256 % 256, (p.length + 4) % 256, 255, 1].getD 2 0 = 255 from rfl,
      show [(p.length + 4) / 256 % 256, (p.length + 4) % 256, 255, 1].getD 3 0 = 1 from rfl,
      show [(p.length + 4) / 256 % 256, (p.length + 4) % 256, 255, 1].getD 0 0 =
        (p.length + 4) / 256 % 256 from rfl,
      show [(p.length + 4) / 256 % 256, (p.length + 4) % 256, 255, 1].getD 1 0 =
        (p.length + 4) % 256 from rfl]
  rw [if_neg (by decide :
    ¬((((255 : Nat) != 255) || ((1 : Nat) != 1)) = true))]
  have hlen : 256 * ((p.length + 4) / 256 % 256) + (p.length + 4) % 256 =
      p.length + 4 := by omega
  rw [hlen]
  unfold rp66.append
  dsimp only
  rw [hbase, hpos]

theorem rp66_moveLast_snoc (z : Int) (fp : memfile) (l : List vrheader) (h : vrheader)
    (cp : Nat) (cr : Int) :
    rp66.moveLast { zero := z, fp := fp, idx := l ++ [h], curPos := cp, curRemaining := cr } =
      { zero := z, fp := fp, idx := l ++ [h], curPos := l.length,
        curRemaining := (h.length : Int) - 4 } := by
  unfold rp66.moveLast
  dsimp only
  rw [List.length_append]
  simp only [List.length_cons, List.length_nil, Nat.add_sub_cancel]
  rw [getD_snoc_length]

theorem rpReadOne_drains (rest : List (List Nat)) :
    ∀ (s : rp66) (off : Nat) (toRead : Int) (fuel : Nat),
      rpAligned s rest off →
      (sumLen rest : Int) < toRead →
      rest.length + 1 ≤ fuel →
      (rest.join = [] ∧ ∃ s1, rp66.readOne toRead fuel s = .ok ([], s1) ∧
        s1.eof = true ∧ s1.curRemaining = 0) ∨
      (∃ q rest1 off1 s1, rest.join = q ++ rest1.join ∧ q ≠ [] ∧
        sumLen rest = q.length + sumLen rest1 ∧ rest1.length < rest.length ∧
        rp66.readOne toRead fuel s = .ok (q, s1) ∧ rpAligned s1 rest1 off1) := by
  induction rest with
  | nil =>
    intro s off toRead fuel hA _ hfuel
    obtain ⟨hz, hpos, hdrop, hne, hcp, hcr, hbase, hle, hsz⟩ := hA
    obtain ⟨f1, rfl⟩ : ∃ f1, fuel = f1 + 1 := ⟨fuel - 1, by omega⟩
    have hoff : off = s.fp.mem.length := by
      have := congrArg List.length hdrop
      simp only [List.length_drop, encodeRp66] at this
      simp at this
      omega
    refine Or.inl ⟨rfl, s, ?_, ?_, hcr⟩
    · simp only [rp66.readOne]
      rw [hcr, if_pos (by decide : ((0 : Int) == 0) = true)]
      rw [show s.eof = true from by
        unfold rp66.eof memfile.eof
        rw [hpos, hoff]
        simp]
      rw [if_pos rfl]
    · unfold rp66.eof memfile.eof
      rw [hpos, hoff]
      simp
  | cons p r ih =>
    intro s off toRead fuel hA hlen hfuel
    obtain ⟨hz, hpos, hdrop, hne, hcp, hcr, hbase, hle, hsz⟩ := hA
    obtain ⟨f1, rfl⟩ : ∃ f1, fuel = f1 + 1 := ⟨fuel - 1, by omega⟩
    have hdlen := congrArg List.length hdrop
    rw [List.length_drop, encodeRp66_length] at hdlen
    have hmax : off + 4 + p.length ≤ s.fp.mem.length := by
      simp only [List.length_cons, sumLen_cons] at hdlen
      omega
    have hrh := rp66_read_header_aligned s p r off hz hpos hdrop hbase
      (hsz p (List.mem_cons_self _ _))
    simp only [rp66.readOne]
    rw [hcr, if_pos (by decide : ((0 : Int) == 0) = true)]
    have heof : s.eof = false := by
      unfold rp66.eof memfile.eof
      rw [hpos]
      simp only [beq_eq_false_iff_ne, ne_eq]
      omega
    rw [heof, if_neg (by decide : ¬(false = true))]
    rw [hcp, if_pos (by simp : (s.idx.length - 1 == s.idx.length - 1) = true)]
    rw [hrh]
    dsimp only
    have hlidx : s.idx.length ≠ 0 := fun hc => hne (List.length_eq_zero.mp hc)
    rw [if_pos (by
      simp only [List.length_append, List.length_cons, List.length_nil, bne_iff_ne, ne_eq]
      omega : ((s.idx.length - 1 !=
        (s.idx ++ [({ length := p.length + 4, format := 255, major := 1,
                      offset := ((off : Nat) : Int) } : vrheader)]).length - 1)) = true)]
    rw [rp66_moveLast_snoc]
    dsimp only
    have hdropP : s.fp.mem.drop (off + 4) = p ++ encodeRp66 r := by
      have h1 : s.fp.mem.drop (off + 4) = (s.fp.mem.drop off).drop 4 := by
        rw [List.drop_drop]
        all_goals congr 1
        all_goals omega
      rw [h1, hdrop]
      rw [show encodeRp66 (p :: r) =
        [(p.length + 4) / 256 % 256, (p.length + 4) % 256, 255, 1] ++
          (p ++ encodeRp66 r) from by simp [encodeRp66]]
      rw [List.drop_left' (by simp)]
    rcases Decidable.em (p = []) with hpnil | hpne
    · subst hpnil
      have hA2 : rpAligned
          { s with fp := { mem := s.fp.mem, pos := off + 4 },
                   idx := s.idx ++
                     [{ length := List.length ([] : List Nat) + 4, format := 255, major := 1,
                        offset := ((off : Nat) : Int) }],
                   curPos := s.idx.length,
                   curRemaining := (((List.length ([] : List Nat) + 4 : Nat) : Int)) - 4 }
          r (off + 4) := by
        refine ⟨hz, rfl, by simpa using hdropP, by simp, ?_, by simp, ?_, by
          dsimp only
          omega, fun q hq => hsz q (List.mem_cons_of_mem _ hq)⟩
        · dsimp only
          rw [List.length_append]
          simp
        · dsimp only
          rw [List.length_append]
          simp only [List.length_cons, List.length_nil, Nat.add_sub_cancel]
          rw [getD_snoc_length]
          rw [if_neg (by
            simp only [beq_iff_eq]
            omega)]
          dsimp only
          push_cast
          ring
      have hIH := ih _ (off + 4) toRead f1 hA2 (by
        rw [sumLen_cons] at hlen
        push_cast at hlen ⊢
        omega) (by
        simp only [List.length_cons] at hfuel
        omega)
      rcases hIH with ⟨hj, s1, hone, he1, hc1⟩ | ⟨q, rest1, off1, s1, hj, hq, hsum, hlt, hone, hA1⟩
      · refine Or.inl ⟨by simpa using hj, s1, hone, he1, hc1⟩
      · refine Or.inr ⟨q, rest1, off1, s1, by simpa using hj, hq, ?_, ?_, hone, hA1⟩
        · rw [sumLen_cons]
          simpa using hsum
        · simp only [List.length_cons]
          omega
    · have hplen : 0 < p.length := List.length_pos.mpr hpne
      obtain ⟨f2, rfl⟩ : ∃ f2, f1 = f2 + 1 := ⟨f1 - 1, by
        simp only [List.length_cons] at hfuel
        omega⟩
      rw [show (((p.length + 4 : Nat) : Int)) - 4 = ((p.length : Nat) : Int) from by
        push_cast
        ring]
      simp only [rp66.readOne]
      rw [if_neg (by
        simp only [beq_iff_eq]
        intro hc
        have := Int.natCast_eq_zero.mp hc
        omega : ¬((((p.length : Nat) : Int)) == 0) = true)]
      have hmin : min toRead ((p.length : Nat) : Int) = ((p.length : Nat) : Int) := by
        rw [sumLen_cons] at hlen
        push_cast at hlen
        omega
      rw [hmin]
      have htoNat : (((p.length : Nat) : Int)).toNat = p.length := Int.toNat_natCast _
      rw [htoNat]
      have hread := memfile_read_exact
        { mem := s.fp.mem, pos := off + 4 } p (encodeRp66 r) p.length
        (by simpa using hdropP) rfl
      rw [hread]
      dsimp only
      rw [if_neg (by omega :
        ¬((((p.length : Nat) : Int)) - (((p.length : Nat) : Int)) < 0))]
      refine Or.inr ⟨p, r, off + 4 + p.length, _, rfl, hpne, sumLen_cons p r, by
        simp only [List.length_cons]
        omega, rfl, ?_⟩
      refine ⟨hz, rfl, ?_, by simp, ?_, by simp, ?_, by
        dsimp only
        omega, fun q hq => hsz q (List.mem_cons_of_mem _ hq)⟩
      · dsimp only
        have h1 : s.fp.mem.drop (off + 4 + p.length) =
            (s.fp.mem.drop (off + 4)).drop p.length := by
          rw [List.drop_drop]
          all_goals congr 1
          all_goals omega
        rw [h1, hdropP, List.drop_left]
      · dsimp only
        rw [List.length_append]
        simp
      · dsimp only
        rw [List.length_append]
        simp only [List.length_cons, List.length_nil, Nat.add_sub_cancel]
        rw [getD_snoc_length]
        rw [if_neg (by
          simp only [beq_iff_eq]
          omega)]
        dsimp only
        push_cast
        ring

theorem rpLoop_drains (k : Nat) :
    ∀ (rest : List (List Nat)) (s : rp66) (off : Nat) (toRead : Int)
      (acc : List Nat) (fuel : Nat),
      rest.length ≤ k →
      rpAligned s rest off →
      (sumLen rest : Int) < toRead →
      k + 2 ≤ fuel →
      ∃ s1, rp66.readLoop acc toRead fuel s = .ok (acc ++ rest.join, Status.eof, s1) := by
  induction k with
  | zero =>
    intro rest s off toRead acc fuel hk hA hlen hfuel
    obtain ⟨fl, rfl⟩ : ∃ fl, fuel = fl + 1 := ⟨fuel - 1, by omega⟩
    have hinner : rest.length + 1 ≤ s.fp.mem.length + s.idx.length + 2 := by omega
    have hOne := rpReadOne_drains rest s off toRead _ hA hlen hinner
    simp only [rp66.readLoop]
    rcases hOne with ⟨hj, s1, hone, he1, hc1⟩ | ⟨q, rest1, off1, s1, hj, hq, hsum, hlt, hone, hA1⟩
    · rw [hone]
      dsimp only
      rw [if_neg (by
        simp only [beq_iff_eq]
        intro hc
        simp only [List.length_nil, Nat.cast_zero, sub_zero] at hc
        omega : ¬((toRead - ((List.length ([] : List Nat) : Nat) : Int) == 0) = true))]
      rw [he1, if_pos rfl]
      rw [hc1, if_pos (by decide : ((0 : Int) == 0) = true)]
      exact ⟨s1, by rw [hj]⟩
    · exact absurd hlt (by omega)
  | succ k ih =>
    intro rest s off toRead acc fuel hk hA hlen hfuel
    obtain ⟨fl, rfl⟩ : ∃ fl, fuel = fl + 1 := ⟨fuel - 1, by omega⟩
    have hinner : rest.length + 1 ≤ s.fp.mem.length + s.idx.length + 2 := by
      have hdl := congrArg List.length hA.2.2.1
      rw [List.length_drop, encodeRp66_length] at hdl
      omega
    have hOne := rpReadOne_drains rest s off toRead _ hA hlen hinner
    simp only [rp66.readLoop]
    rcases hOne with ⟨hj, s1, hone, he1, hc1⟩ | ⟨q, rest1, off1, s1, hj, hq, hsum, hlt, hone, hA1⟩
    · rw [hone]
      dsimp only
      rw [if_neg (by
        simp only [beq_iff_eq]
        intro hc
        simp only [List.length_nil, Nat.cast_zero, sub_zero] at hc
        omega : ¬((toRead - ((List.length ([] : List Nat) : Nat) : Int) == 0) = true))]
      rw [he1, if_pos rfl]
      rw [hc1, if_pos (by decide : ((0 : Int) == 0) = true)]
      exact ⟨s1, by rw [hj]⟩
    · rw [hone]
      dsimp only
      rw [if_neg (by
        simp only [beq_iff_eq]
        intro hc
        omega : ¬((toRead - ((q.length : Nat) : Int) == 0) = true))]
      obtain ⟨hz1, hpos1, hdrop1, hne1, hcp1, hcr1, hbase1, hle1, hsz1⟩ := hA1
      cases rest1 with
      | nil =>
        have hoff1 : off1 = s1.fp.mem.length := by
          have := congrArg List.length hdrop1
          simp only [List.length_drop, encodeRp66, List.length_nil] at this
          omega
        have he1 : s1.eof = true := by
          unfold rp66.eof memfile.eof
          rw [hpos1, hoff1]
          simp
        rw [he1, if_pos rfl]
        rw [hcr1, if_pos (by decide : ((0 : Int) == 0) = true)]
        refine ⟨s1, ?_⟩
        rw [hj]
        simp
      | cons q2 r2 =>
        have hdlen1 := congrArg List.length hdrop1
        rw [List.length_drop, encodeRp66_length] at hdlen1
        have he1 : s1.eof = false := by
          unfold rp66.eof memfile.eof
          rw [hpos1]
          simp only [beq_eq_false_iff_ne, ne_eq]
          simp only [List.length_cons] at hdlen1
          omega
        rw [he1, if_neg (by decide : ¬(false = true))]
        rw [if_neg (by
          simp only [beq_iff_eq]
          intro hc
          exact hq (List.length_eq_zero.mp (by exact_mod_cast hc)) :
          ¬(((q.length : Nat) : Int) == 0) = true)]
        have hIH := ih (q2 :: r2) s1 off1 (toRead - (q.length : Int)) (acc ++ q) fl
          (by omega)
          ⟨hz1, hpos1, hdrop1, hne1, hcp1, hcr1, hbase1, hle1, hsz1⟩
          (by omega) (by omega)
        obtain ⟨s2, h2⟩ := hIH
        refine ⟨s2, ?_⟩
        rw [h2, hj]
        simp

theorem rp66_roundtrip (ps : List (List Nat)) (len : Int)
    (hsz : ∀ p ∈ ps, p.length + 4 ≤ 65535)
    (hlen : (sumLen ps : Int) < len) :
    ∃ sF, rp66.readinto (rp66.open ⟨encodeRp66 ps, 0⟩) len =
      .ok (ps.join, Status.eof, sF) := by
  have hA : rpAligned (rp66.open ⟨encodeRp66 ps, 0⟩) ps 0 := by
    unfold rp66.open
    exact ⟨rfl, rfl, by simp, by simp, rfl, rfl, rfl, by simp, hsz⟩
  unfold rp66.readinto
  have h := rpLoop_drains ps.length ps (rp66.open ⟨encodeRp66 ps, 0⟩) 0 len []
    (rp66.fuelFor (rp66.open ⟨encodeRp66 ps, 0⟩) len) (le_refl _) hA hlen (by
      unfold rp66.fuelFor rp66.open
      dsimp only
      have := encodeRp66_length ps
      omega)
  obtain ⟨s1, h1⟩ := h
  exact ⟨s1, by simpa using h1⟩

/-- **C1** — Round trip: for every well-formed tape-image stream
(`encodeTif ps`, total payload shorter than the request) and every
well-formed rp66 stream (`encodeRp66 ps`), opening the decoder over the
bytes and reading to the end returns exactly the concatenation of the
record payloads in file order with status *eof*; in particular for the
32-byte scenario-S1 stream a single read of 10 bytes returns exactly
the 8 payload bytes with status *eof*, after which `tell` is 8 and
`eof` is true. -/
theorem claim1_roundtrip :
    (∀ (ps : List (List Nat)) (len : Int),
      (encodeTif ps).length < 4294967296 → (sumLen ps : Int) < len →
      ∃ s sF, tapeimage.open ⟨encodeTif ps, 0⟩ = .ok s ∧
        tapeimage.readinto s len = .ok (ps.join, Status.eof, sF)) ∧
    (∀ (ps : List (List Nat)) (len : Int),
      (∀ p ∈ ps, p.length + 4 ≤ 65535) → (sumLen ps : Int) < len →
      ∃ sF, rp66.readinto (rp66.open ⟨encodeRp66 ps, 0⟩) len =
        .ok (ps.join, Status.eof, sF)) ∧
    (∃ s sF, tapeimage.open ⟨s1bytes, 0⟩ = .ok s ∧
      tapeimage.readinto s 10 = .ok (s1payload, Status.eof, sF) ∧
      sF.tell = 8 ∧ sF.eof = true) := by
  refine ⟨tif_roundtrip, rp66_roundtrip, ?_⟩
  refine ⟨{ zero := 0, fp := { mem := s1bytes, pos := 12 },
            index := [⟨0, 0, 20⟩], curPos := 0, curRemaining := 8,
            recovery := .ok },
          { zero := 0, fp := { mem := s1bytes, pos := 32 },
            index := [⟨0, 0, 20⟩, ⟨1, 0, 32⟩], curPos := 1, curRemaining := 0,
            recovery := .ok },
          rfl, rfl, rfl, rfl⟩

theorem claim1_roundtrip_witness :
    (∃ s sF, tapeimage.open ⟨encodeTif [[7, 7]], 0⟩ = .ok s ∧
      tapeimage.readinto s 3 = .ok ([7, 7], Status.eof, sF)) ∧
    (∃ sF, rp66.readinto (rp66.open ⟨encodeRp66 [[7, 7]], 0⟩) 3 =
      .ok ([7, 7], Status.eof, sF)) := by
  constructor
  · have h := claim1_roundtrip.1 [[7, 7]] 3 (by decide) (by decide)
    simpa using h
  · have h := claim1_roundtrip.2.1 [[7, 7]] 3 (by decide) (by decide)
    simpa using h
